import Mathlib

/-!
# Verification of the tunnelto control plane against its specification

Shallow embedding of the repository's three source files:

* `portal_server/src/network/mod.rs` — instance discovery (`get_instances`),
  the per-instance host query (`serves_host`) and the racing host resolver
  (`instance_for_host`);
* `portal_lib/src/handshake/agent.rs` — the `AgentHandshake` wire message,
  its derive-generated builder, `AgentId` / `Auth` and the auxiliary
  descriptor types, together with their serde (JSON) wire encoding.

Effectful library behaviour is made explicit: the DNS resolver and the
per-instance HTTP queries become environment parameters, the completion
order of the raced queries becomes the order of an explicit list, and the
process RNG consumed by `Uuid::new_v4` becomes an explicit `Nat` of random
bits.  Machine integers are `Nat` with explicit bounds where they matter.
-/

namespace Tunnelto

/-! ## Basic data: IP addresses and UUIDs

`IpAddr` models `std::net::IpAddr`: a `V4` address as its four octets, a
`V6` address as its eight 16-bit segments (as `Ipv6Addr::new` and
`segments()` present it). -/

inductive IpAddr : Type
  | v4 (o1 o2 o3 o4 : Nat)
  | v6 (s0 s1 s2 s3 s4 s5 s6 s7 : Nat)
deriving DecidableEq, Repr

/-- Validity of an address: each octet fits a byte, each segment 16
bits. -/
def IpAddr.Valid : IpAddr → Prop
  | .v4 a b c d => a < 256 ∧ b < 256 ∧ c < 256 ∧ d < 256
  | .v6 s0 s1 s2 s3 s4 s5 s6 s7 =>
    s0 < 2 ^ 16 ∧ s1 < 2 ^ 16 ∧ s2 < 2 ^ 16 ∧ s3 < 2 ^ 16 ∧
    s4 < 2 ^ 16 ∧ s5 < 2 ^ 16 ∧ s6 < 2 ^ 16 ∧ s7 < 2 ^ 16

instance : DecidablePred IpAddr.Valid := by
  intro ip; cases ip <;> simp only [IpAddr.Valid] <;> infer_instance

/-- `uuid::Uuid`, kept as its five textual groups (32 + 16 + 16 + 16 + 48
bits); the hyphenated-hex wire form prints exactly these five groups. -/
structure Uuid where
  timeLow : Nat
  timeMid : Nat
  timeHi : Nat
  clockSeq : Nat
  node : Nat
deriving DecidableEq, Repr

/-- Validity: each group fits its bit width. -/
def Uuid.Valid (u : Uuid) : Prop :=
  u.timeLow < 2 ^ 32 ∧ u.timeMid < 2 ^ 16 ∧ u.timeHi < 2 ^ 16 ∧
  u.clockSeq < 2 ^ 16 ∧ u.node < 2 ^ 48

instance : DecidablePred Uuid.Valid := by
  intro u; simp only [Uuid.Valid]; infer_instance

/-- `Uuid::new_v4()` draws 122 random bits from the process RNG and fixes
the version nibble to `4` and the variant bits to `10`; the random draw is
passed explicitly as `r`. -/
def Uuid.newV4 (r : Nat) : Uuid :=
  let r := r % 2 ^ 122
  { timeLow := r % 2 ^ 32
    timeMid := r / 2 ^ 32 % 2 ^ 16
    timeHi := 2 ^ 14 * 4 + r / 2 ^ 48 % 2 ^ 12
    clockSeq := 2 ^ 15 + r / 2 ^ 60 % 2 ^ 14
    node := r / 2 ^ 74 % 2 ^ 48 }

/-! ## The network module (`portal_server/src/network/mod.rs`) -/

/-- `ClientId` — modelled from the spec: the type lives in `portal_lib`
outside the given sources; per §3 it is "semantically equivalent to
`AgentId`", a UUID-valued routing key with value-based equality. -/
structure ClientId where
  id : Uuid
deriving DecidableEq, Repr

/-- The error taxonomy of `network::Error` (`Io` is `ioErr` here).  The
variants other than `doesNotServeHost` carry their source error's message
so that distinct underlying failures stay distinguishable. -/
inductive NetError : Type
  | ioErr (msg : String)
  | request (msg : String)
  | resolver (msg : String)
  | doesNotServeHost
deriving DecidableEq, Repr

/-- An instance of our server (`struct Instance { ip: IpAddr }`). -/
structure Instance where
  ip : IpAddr
deriving DecidableEq, Repr

/-- The part of `Config` the network module reads — modelled from the spec:
`config.rs` is outside the given sources; §6 lists an optional discovery
DNS hostname and an internal-network port, read once and immutable. -/
structure Config where
  gossip_dns_host : Option String
  internal_network_port : Nat

/-- `Instance::get_instances`.  The DNS environment (resolver construction
plus `lookup_ip`, both of whose failures convert into `Error::Resolver`)
is the explicit function `resolve`. -/
def getInstances (cfg : Config) (resolve : String → Except String (List IpAddr)) :
    Except NetError (List Instance) :=
  match cfg.gossip_dns_host with
  | none => .ok []
  | some dns =>
    match resolve dns with
    | .error e => .error (.resolver e)
    | .ok ips => .ok (ips.map Instance.mk)

/-- The body of a received response: `response.json()` either fails to
parse (a `reqwest::Error`) or yields a `HostQueryResponse`, whose
single field is `client_id: Option<ClientId>` (modelled from the spec:
`network/server.rs` is outside the given sources; §3 and §6 give the
response shape `{"client_id": <uuid-string|null>}`). -/
inductive BodyOutcome : Type
  | malformed (msg : String)
  | parsed (client_id : Option ClientId)

/-- What the environment returns for one `serves_host` HTTP query:
either the `send()` call fails (connect error, or the 2-second timeout —
both surface as a `reqwest::Error`), or a response arrives with a status
code and a body. -/
inductive QueryOutcome : Type
  | transportError (msg : String)
  | response (status : Nat) (body : BodyOutcome)

/-- `Instance::serves_host`: positive exactly on a transport-clean,
well-formed `200` response whose `client_id` is present; the HTTP outcome
for this query is supplied by the environment as `out`. -/
def servesHost (inst : Instance) (out : QueryOutcome) :
    Except NetError (Instance × ClientId) :=
  match out with
  | .transportError m => .error (.request m)
  | .response status body =>
    match body with
    | .malformed m => .error (.request m)
    | .parsed client_id =>
      match status, client_id with
      | 200, some c => .ok (inst, c)
      | _, _ => .error .doesNotServeHost

/-- `futures::future::select_ok` on an already-completed list of results,
listed in completion order: the first `Ok` wins; a future that fails is
dropped, and when the list empties the error of the last future to fail
is returned.  `none` only on the empty list (on which the Rust function
is never invoked here). -/
def selectOk {ε α : Type} : List (Except ε α) → Option (Except ε α)
  | [] => none
  | [r] => some r
  | .ok a :: _ :: _ => some (.ok a)
  | .error _ :: r :: rs => selectOk (r :: rs)

/-- `instance_for_host`.  `env host instances` is the environment's side of
the race: the query issued for each discovered instance paired with its
outcome, listed in the order the queries complete.  The final `none` arm
of the `selectOk` match is unreachable whenever `env` schedules one query
per instance of a non-empty instance set. -/
def instanceForHost (cfg : Config) (resolve : String → Except String (List IpAddr))
    (host : String) (env : String → List Instance → List (Instance × QueryOutcome)) :
    Except NetError (Instance × ClientId) :=
  match getInstances cfg resolve with
  | .error e => .error e
  | .ok instances =>
    if instances.length = 0 then
      .error .doesNotServeHost
    else
      match selectOk ((env host instances).map fun p => servesHost p.1 p.2) with
      | some r => r
      | none => .error .doesNotServeHost

/-! ## Textual leaf encodings

`Uuid`, `semver::Version` and `IpAddr` cross the wire as strings (their
`Display` forms, which serde serializes and whose `FromStr` parsers serde
invokes on deserialization).  The printers and parsers below model those
forms over `List Char`. -/

/-- Digit characters, lowercase hex (the first ten are the decimal
digits); `Display` for the numeric types only ever emits digits below the
base, so the catch-all is never reached there. -/
def hexChar (d : Nat) : Char :=
  if d < 10 then Char.ofNat (48 + d)
  else if d < 16 then Char.ofNat (87 + d)
  else '*'

/-- Value of one decimal digit character. -/
def decVal (c : Char) : Option Nat :=
  if 48 ≤ c.toNat ∧ c.toNat ≤ 57 then some (c.toNat - 48) else none

/-- Value of one hexadecimal digit character (either case, as the uuid
parser accepts). -/
def hexVal (c : Char) : Option Nat :=
  if 48 ≤ c.toNat ∧ c.toNat ≤ 57 then some (c.toNat - 48)
  else if 97 ≤ c.toNat ∧ c.toNat ≤ 102 then some (c.toNat - 87)
  else if 65 ≤ c.toNat ∧ c.toNat ≤ 70 then some (c.toNat - 55)
  else none

/-- Apply a fallible function to every element, failing if any application
fails. -/
def mapOption {α β : Type} (f : α → Option β) : List α → Option (List β)
  | [] => some []
  | a :: as =>
    match f a, mapOption f as with
    | some b, some bs => some (b :: bs)
    | _, _ => none

/-- Parse a non-empty big-endian digit string in base `b`. -/
def parseDigitsBE (b : Nat) (dv : Char → Option Nat) (cs : List Char) : Option Nat :=
  if cs.isEmpty then none
  else (mapOption dv cs).map (List.foldl (fun a d => a * b + d) 0)

/-- Little-endian base-`b` digits of `n` (finishing at 0), with fuel. -/
def digitsLE (b : Nat) : Nat → Nat → List Nat
  | 0, _ => []
  | _ + 1, 0 => []
  | fuel + 1, n + 1 => (n + 1) % b :: digitsLE b fuel ((n + 1) / b)

/-- Decimal `Display` of an unsigned integer: no sign, no leading zeros,
`"0"` for zero. -/
def natPrint (n : Nat) : List Char :=
  if n = 0 then ['0'] else ((digitsLE 10 n n).map hexChar).reverse

/-- Variable-width lowercase hex rendering (`{:x}`-style), as one IPv6
segment is written. -/
def segPrint (n : Nat) : List Char :=
  if n = 0 then ['0'] else ((digitsLE 16 n n).map hexChar).reverse

/-- Exactly `k` little-endian base-16 digits of `n`. -/
def hexDigitsLE : Nat → Nat → List Nat
  | 0, _ => []
  | k + 1, n => n % 16 :: hexDigitsLE k (n / 16)

/-- Fixed-width lowercase hex rendering (`{:08x}`-style), as the uuid
`Display` uses for each group. -/
def hexPrint (k n : Nat) : List Char := ((hexDigitsLE k n).map hexChar).reverse

/-- Split a character list on a separator; always returns at least one
(possibly empty) group. -/
def splitOnChar (sep : Char) : List Char → List (List Char)
  | [] => [[]]
  | c :: rest =>
    match splitOnChar sep rest with
    | [] => [[c]]
    | g :: gs => if c = sep then [] :: g :: gs else (c :: g) :: gs

/-- Split at the first occurrence of a separator: the prefix before it
and, when the separator occurs, the suffix after it. -/
def splitFirst (sep : Char) : List Char → List Char × Option (List Char)
  | [] => ([], none)
  | c :: rest =>
    if c = sep then ([], some rest)
    else
      let (l, r) := splitFirst sep rest
      (c :: l, r)

/-- Join chunks with a single separator character between them. -/
def joinIds (sep : Char) : List (List Char) → List Char
  | [] => []
  | [id] => id
  | id :: ids => id ++ sep :: joinIds sep ids

/-- A decimal digit character. -/
def isDigitChar (c : Char) : Bool := 48 ≤ c.toNat && c.toNat ≤ 57

/-- A semver identifier character: ASCII alphanumeric or hyphen. -/
def isIdentChar (c : Char) : Bool :=
  (48 ≤ c.toNat && c.toNat ≤ 57) || (65 ≤ c.toNat && c.toNat ≤ 90) ||
    (97 ≤ c.toNat && c.toNat ≤ 122) || c = '-'

/-- A digit string with a forbidden leading zero (more than one digit
starting with `0`). -/
def leadingZero : List Char → Bool
  | c :: _ :: _ => c == '0'
  | _ => false

/-- A valid semver pre-release identifier: non-empty, alphanumeric or
hyphen characters, and no leading zero when it is all-numeric. -/
def preIdentOk (cs : List Char) : Bool :=
  !cs.isEmpty && cs.all isIdentChar && (!cs.all isDigitChar || !leadingZero cs)

/-- A valid semver build-metadata identifier: non-empty, alphanumeric or
hyphen characters (leading zeros permitted). -/
def buildIdentOk (cs : List Char) : Bool :=
  !cs.isEmpty && cs.all isIdentChar

/-- A semver numeric component (`u64` in the library): non-empty decimal
digits, no leading zero, value below `2 ^ 64`. -/
def parseNumericIdent (cs : List Char) : Option Nat :=
  if leadingZero cs then none
  else
    match parseDigitsBE 10 decVal cs with
    | some n => if n < 2 ^ 64 then some n else none
    | none => none

/-- `semver::Version`: the numeric `major.minor.patch` core plus the
pre-release and build-metadata identifier lists (`[]` when absent), kept
as the library keeps them — textual identifiers. -/
structure Version where
  major : Nat
  minor : Nat
  patch : Nat
  pre : List (List Char)
  build : List (List Char)
deriving DecidableEq, Repr

/-- Validity: the numeric components fit `u64` and every pre-release /
build identifier is well-formed for its position. -/
def Version.Valid (v : Version) : Prop :=
  v.major < 2 ^ 64 ∧ v.minor < 2 ^ 64 ∧ v.patch < 2 ^ 64 ∧
  (∀ id ∈ v.pre, preIdentOk id = true) ∧
  (∀ id ∈ v.build, buildIdentOk id = true)

instance : DecidablePred Version.Valid := by
  intro v; simp only [Version.Valid]; infer_instance

/-- `Display` for `semver::Version`: `major.minor.patch`, then `-pre`
when a pre-release is present, then `+build` when build metadata is
present. -/
def Version.print (v : Version) : List Char :=
  (natPrint v.major ++ '.' :: natPrint v.minor ++ '.' :: natPrint v.patch)
    ++ (if v.pre = [] then [] else '-' :: joinIds '.' v.pre)
    ++ (if v.build = [] then [] else '+' :: joinIds '.' v.build)

/-- `semver::Version::parse`: build metadata starts at the first `+`,
the pre-release at the first `-` before it; the core is exactly three
dot-separated numeric components, and each pre-release/build identifier
is checked for well-formedness. -/
def Version.parse (cs : List Char) : Option Version :=
  let (vp, buildPart) := splitFirst '+' cs
  let (core, prePart) := splitFirst '-' vp
  match splitOnChar '.' core with
  | [a, b, c] =>
    match parseNumericIdent a, parseNumericIdent b, parseNumericIdent c with
    | some major, some minor, some patch =>
      let preIds : Option (List (List Char)) :=
        match prePart with
        | none => some []
        | some p =>
          let ids := splitOnChar '.' p
          if ids.all preIdentOk then some ids else none
      let buildIds : Option (List (List Char)) :=
        match buildPart with
        | none => some []
        | some bp =>
          let ids := splitOnChar '.' bp
          if ids.all buildIdentOk then some ids else none
      match preIds, buildIds with
      | some pre, some build => some ⟨major, minor, patch, pre, build⟩
      | _, _ => none
    | _, _, _ => none
  | _ => none

/-- `Display` for `uuid::Uuid`: the five groups in lowercase hex, widths
8-4-4-4-12, joined by hyphens. -/
def Uuid.print (u : Uuid) : List Char :=
  hexPrint 8 u.timeLow ++ '-' :: hexPrint 4 u.timeMid ++ '-'
    :: hexPrint 4 u.timeHi ++ '-' :: hexPrint 4 u.clockSeq ++ '-'
    :: hexPrint 12 u.node

/-- The hyphenated form accepted by the uuid parser: five
hyphen-separated hex groups of widths 8-4-4-4-12. -/
def Uuid.parseHyphenated (cs : List Char) : Option Uuid :=
  match splitOnChar '-' cs with
  | [a, b, c, d, e] =>
    if a.length = 8 ∧ b.length = 4 ∧ c.length = 4 ∧ d.length = 4 ∧
        e.length = 12 then
      match parseDigitsBE 16 hexVal a, parseDigitsBE 16 hexVal b,
          parseDigitsBE 16 hexVal c, parseDigitsBE 16 hexVal d,
          parseDigitsBE 16 hexVal e with
      | some tl, some tm, some th, some cq, some nd =>
        some ⟨tl, tm, th, cq, nd⟩
      | _, _, _, _, _ => none
    else none
  | _ => none

/-- The simple form: exactly 32 hex digits, no separators. -/
def Uuid.parseSimple (cs : List Char) : Option Uuid :=
  if cs.length = 32 then
    match parseDigitsBE 16 hexVal (cs.take 8),
        parseDigitsBE 16 hexVal ((cs.drop 8).take 4),
        parseDigitsBE 16 hexVal ((cs.drop 12).take 4),
        parseDigitsBE 16 hexVal ((cs.drop 16).take 4),
        parseDigitsBE 16 hexVal (cs.drop 20) with
    | some tl, some tm, some th, some cq, some nd =>
      some ⟨tl, tm, th, cq, nd⟩
    | _, _, _, _, _ => none
  else none

/-- `Uuid::from_str` (`uuid::Uuid::try_parse`): dispatches on length —
32 bytes is the simple form; 36 the hyphenated form; 38 the hyphenated
form in braces; 45 the hyphenated form behind a `urn:uuid:` prefix. -/
def Uuid.parse (cs : List Char) : Option Uuid :=
  if cs.length = 32 then Uuid.parseSimple cs
  else if cs.length = 36 then Uuid.parseHyphenated cs
  else if cs.length = 38 then
    match cs with
    | c :: rest =>
      if c = Char.ofNat 123 ∧ rest.getLast? = some (Char.ofNat 125) then
        Uuid.parseHyphenated rest.dropLast
      else none
    | [] => none
  else if cs.length = 45 then
    match cs with
    | 'u' :: 'r' :: 'n' :: ':' :: 'u' :: 'u' :: 'i' :: 'd' :: ':' :: rest =>
      Uuid.parseHyphenated rest
    | _ => none
  else none

/-- `Display` for `Ipv4Addr`: four dot-separated decimal octets. -/
def ipv4Print (a b c d : Nat) : List Char :=
  natPrint a ++ '.' :: natPrint b ++ '.' :: natPrint c ++ '.' :: natPrint d

/-- `Parser::read_number(10, Some(3), false)`: one to three decimal
digits read greedily, no leading zero, value at most 255; returns the
value and the unconsumed input. -/
def readOctet (cs : List Char) : Option (Nat × List Char) :=
  let ds := (cs.takeWhile fun c => (decVal c).isSome).take 3
  if ds = [] then none
  else if leadingZero ds then none
  else
    match parseDigitsBE 10 decVal ds with
    | some n => if n ≤ 255 then some (n, cs.drop ds.length) else none
    | none => none

/-- `Parser::read_ipv4_addr`: four dot-separated octets, consuming a
prefix of the input (atomic — `none` consumes nothing). -/
def readIpv4 (cs : List Char) : Option ((Nat × Nat × Nat × Nat) × List Char) :=
  match readOctet cs with
  | some (a, '.' :: r1) =>
    match readOctet r1 with
    | some (b, '.' :: r2) =>
      match readOctet r2 with
      | some (c, '.' :: r3) =>
        match readOctet r3 with
        | some (d, r4) => some ((a, b, c, d), r4)
        | none => none
      | _ => none
    | _ => none
  | _ => none

/-- `Parser::read_number(16, Some(4), true)` for one IPv6 group: one to
four hex digits read greedily (leading zeros allowed). -/
def readHexGroup (cs : List Char) : Option (Nat × List Char) :=
  let ds := (cs.takeWhile fun c => (hexVal c).isSome).take 4
  if ds = [] then none
  else
    match parseDigitsBE 16 hexVal ds with
    | some n => some (n, cs.drop ds.length)
    | none => none

/-- A trailing embedded IPv4 address, as two 16-bit groups. -/
def readEmbeddedIpv4 (cs : List Char) : Option ((Nat × Nat) × List Char) :=
  match readIpv4 cs with
  | some ((a, b, c, d), rest) => some ((a * 256 + b, c * 256 + d), rest)
  | none => none

/-- `Parser::read_separator`: the first item needs no separator, later
ones a `:`; atomic. -/
def readSep {α : Type} (first : Bool) (f : List Char → Option (α × List Char))
    (cs : List Char) : Option (α × List Char) :=
  if first then f cs
  else
    match cs with
    | ':' :: rest => f rest
    | _ => none

/-- `read_groups`: up to `limit` `:`-separated groups; whenever at least
two slots remain, a trailing embedded IPv4 (filling two groups and ending
the sequence) is tried first.  Returns the groups read, whether the last
two came from an embedded IPv4, and the unconsumed input. -/
def readGroups : Nat → Bool → List Char → List Nat × Bool × List Char
  | 0, _, cs => ([], false, cs)
  | limit + 1, first, cs =>
    match (if 1 ≤ limit then readSep first readEmbeddedIpv4 cs else none) with
    | some ((g1, g2), rest) => ([g1, g2], true, rest)
    | none =>
      match readSep first readHexGroup cs with
      | none => ([], false, cs)
      | some (g, rest) =>
        let (gs, iv, rest') := readGroups limit false rest
        (g :: gs, iv, rest')

/-- `fmt_subslice`: the segments in variable-width hex, `:`-separated
(the first without a leading separator). -/
def printSeq : Bool → List Nat → List Char
  | _, [] => []
  | true, g :: gs => segPrint g ++ printSeq false gs
  | false, g :: gs => ':' :: segPrint g ++ printSeq false gs

/-- The zero-run search of `Ipv6Addr`'s `Display`: scan the segments
tracking the current run of zero segments and the first longest run seen
(strictly longer runs replace it). -/
def zeroRunAux : List Nat → Nat → Nat × Nat → Nat × Nat → Nat × Nat
  | [], _, _, longest => longest
  | s :: rest, i, current, longest =>
    if s = 0 then
      let cur := (if current.2 = 0 then i else current.1, current.2 + 1)
      zeroRunAux rest (i + 1) cur (if longest.2 < cur.2 then cur else longest)
    else zeroRunAux rest (i + 1) (0, 0) longest

/-- The (start, length) of the first longest run of zero segments. -/
def zeroRun (segs : List Nat) : Nat × Nat := zeroRunAux segs 0 (0, 0) (0, 0)

/-- A span `(start, len)` lies inside `l` and covers only zero
segments. -/
def SpanZero (l : List Nat) (span : Nat × Nat) : Prop :=
  span.1 + span.2 ≤ l.length ∧ ∀ j < span.2, l[span.1 + j]? = some 0

/-- `Display` for `Ipv6Addr`: the IPv4-mapped form `::ffff:a.b.c.d` when
the first six segments are `[0,0,0,0,0,0xffff]`; otherwise the first
longest zero-run of length at least two is elided as `::`; otherwise all
eight groups are written. -/
def ipv6Print (segs : List Nat) : List Char :=
  if segs.take 6 = [0, 0, 0, 0, 0, 65535] then
    let g := segs.getD 6 0
    let h := segs.getD 7 0
    ':' :: ':' :: 'f' :: 'f' :: 'f' :: 'f' :: ':' ::
      ipv4Print (g / 256) (g % 256) (h / 256) (h % 256)
  else
    let zr := zeroRun segs
    if 1 < zr.2 then
      printSeq true (segs.take zr.1) ++ ':' :: ':'
        :: printSeq true (segs.drop (zr.1 + zr.2))
    else printSeq true segs

/-- `Parser::read_ipv6_addr`: up to eight head groups (a full head of
eight, possibly ending in an embedded IPv4, is the whole address);
otherwise a `::` followed by at most `8 - head - 1` tail groups, the
elision standing for the missing zero segments.  The entire input must
be consumed. -/
def ipv6Parse (cs : List Char) : Option (List Nat) :=
  match readGroups 8 true cs with
  | (head, headIpv4, rest) =>
    if head.length = 8 then
      if rest = [] then some head else none
    else if headIpv4 then none
    else
      match rest with
      | ':' :: ':' :: rest2 =>
        match readGroups (8 - (head.length + 1)) true rest2 with
        | (tail, _, rest3) =>
          if rest3 = [] then
            some (head ++ List.replicate (8 - head.length - tail.length) 0 ++ tail)
          else none
      | _ => none

/-- `Display` for `IpAddr`. -/
def IpAddr.print : IpAddr → List Char
  | .v4 a b c d => ipv4Print a b c d
  | .v6 s0 s1 s2 s3 s4 s5 s6 s7 => ipv6Print [s0, s1, s2, s3, s4, s5, s6, s7]

/-- `IpAddr`'s `FromStr` (`Parser::read_ip_addr`): an IPv4 address if one
parses (the rest of the input must then be empty), otherwise an IPv6
address. -/
def IpAddr.parse (cs : List Char) : Option IpAddr :=
  match readIpv4 cs with
  | some ((a, b, c, d), rest) =>
    if rest = [] then some (.v4 a b c d) else none
  | none =>
    match ipv6Parse cs with
    | some [s0, s1, s2, s3, s4, s5, s6, s7] =>
      some (.v6 s0 s1 s2 s3 s4 s5 s6 s7)
    | _ => none

/-! ## The handshake message (`portal_lib/src/handshake/agent.rs`) -/

/-- `struct AgentId(Uuid)` — value-based equality. -/
structure AgentId where
  uuid : Uuid
deriving DecidableEq, Repr

/-- `AgentId::default()`: `Uuid::new_v4().into()` — a fresh random v4
UUID; the RNG draw is explicit as `r`. -/
def AgentId.default (r : Nat) : AgentId := ⟨Uuid.newV4 r⟩

/-- Outcome of a Rust computation that may `panic!` and abort the
process. -/
inductive PanicOr (α : Type) : Type
  | panic
  | ok (a : α)
deriving DecidableEq, Repr

/-- `impl From<&str> for AgentId`: `Uuid::from_str(s).unwrap().into()` —
the `unwrap` aborts the process when the text is not a UUID. -/
def AgentId.fromStr (s : String) : PanicOr AgentId :=
  match Uuid.parse s.data with
  | none => .panic
  | some u => .ok ⟨u⟩

/-- `enum Auth { Key(String), Anonymous }`; `Anonymous` is the
`#[default]`. -/
inductive Auth : Type
  | key (secret : String)
  | anonymous
deriving DecidableEq, Repr

/-- `impl From<&str> for Auth`: a bare string becomes `Auth::Key`. -/
def Auth.fromStr (s : String) : Auth := .key s

/-- `struct LocalInfo { ip, port }`. -/
structure LocalInfo where
  ip : IpAddr
  port : Nat
deriving DecidableEq, Repr

/-- `LocalInfo::default()`: loopback, port 8080. -/
def LocalInfo.default : LocalInfo := ⟨.v4 127 0 0 1, 8080⟩

/-- `struct ServiceInfo { target_ip, target_port }`. -/
structure ServiceInfo where
  target_ip : IpAddr
  target_port : Nat
deriving DecidableEq, Repr

/-- `ServiceInfo::default()`: loopback, port 8080. -/
def ServiceInfo.default : ServiceInfo := ⟨.v4 127 0 0 1, 8080⟩

/-- `struct Encryption { method, key }`. -/
structure Encryption where
  method : String
  key : String
deriving DecidableEq, Repr

/-- The handshake message exchanged once per control connection. -/
structure AgentHandshake where
  agent_id : AgentId
  agent_name : Option String
  auth : Auth
  version : Option Version
  local_info : Option LocalInfo
  service_info : Option ServiceInfo
  encryption : Option Encryption
  heartbeat_interval : Nat
  timestamp : Nat
deriving DecidableEq, Repr

/-- Validity: every numeric component fits its machine width
(`heartbeat_interval: u32`, `timestamp: u64`, UUID groups, version
components `u64`, ports `u16`, octets `u8`). -/
def AgentHandshake.Valid (h : AgentHandshake) : Prop :=
  h.agent_id.uuid.Valid ∧
  (∀ v ∈ h.version, v.Valid) ∧
  (∀ li ∈ h.local_info, li.ip.Valid ∧ li.port < 2 ^ 16) ∧
  (∀ si ∈ h.service_info, si.target_ip.Valid ∧ si.target_port < 2 ^ 16) ∧
  h.heartbeat_interval < 2 ^ 32 ∧ h.timestamp < 2 ^ 64

instance : DecidablePred AgentHandshake.Valid := by
  intro h; simp only [AgentHandshake.Valid]; infer_instance

/-- The derive_builder-generated `AgentHandshakeBuilder`: one
`Option`-wrapped slot per field (`strip_option` setters store
`Some(Some(_))`; unset slots are `None`). -/
structure AgentHandshakeBuilder where
  agent_id : Option AgentId := none
  agent_name : Option (Option String) := none
  auth : Option Auth := none
  version : Option (Option Version) := none
  local_info : Option (Option LocalInfo) := none
  service_info : Option (Option ServiceInfo) := none
  encryption : Option (Option Encryption) := none
  heartbeat_interval : Option Nat := none
  timestamp : Option Nat := none
deriving DecidableEq, Repr

/-- `AgentHandshakeBuilder::build` with struct-level `#[builder(default)]`:
never fails; every unset slot falls back to the field type's `Default`
(`AgentId::default` draws a fresh random v4 UUID — the RNG draw is the
explicit `rng`; `Auth` defaults to `Anonymous`; options to `None`;
integers to 0). -/
def AgentHandshakeBuilder.build (b : AgentHandshakeBuilder) (rng : Nat) :
    AgentHandshake :=
  { agent_id := b.agent_id.getD (AgentId.default rng)
    agent_name := b.agent_name.getD none
    auth := b.auth.getD .anonymous
    version := b.version.getD none
    local_info := b.local_info.getD none
    service_info := b.service_info.getD none
    encryption := b.encryption.getD none
    heartbeat_interval := b.heartbeat_interval.getD 0
    timestamp := b.timestamp.getD 0 }

/-- `AgentHandshakeBuilder::generate_agent_id`: assigns a fresh random
identity, overwriting any previously set value. -/
def AgentHandshakeBuilder.generateAgentId (b : AgentHandshakeBuilder)
    (rng : Nat) : AgentHandshakeBuilder :=
  { b with agent_id := some (AgentId.default rng) }

/-- The custom `version(&str)` setter:
`self.version = Some(Some(version.parse().unwrap()))` — the `unwrap`
aborts the process when the text is not a semantic version.  (Named
`setVersion` because `version` is taken by the field accessor.) -/
def AgentHandshakeBuilder.setVersion (b : AgentHandshakeBuilder)
    (text : String) : PanicOr AgentHandshakeBuilder :=
  match Version.parse text.data with
  | none => .panic
  | some v => .ok { b with version := some (some v) }

/-! ## The serde (JSON) wire encoding of `AgentHandshake` -/

/-- The JSON data model serde_json targets (numbers restricted to the
unsigned integers this message ever carries). -/
inductive Json : Type
  | null
  | str (s : String)
  | num (n : Nat)
  | arr (xs : List Json)
  | obj (fields : List (String × Json))

/-- serde encoding of `Option<T>`: `None` is `null`, `Some` is the inner
encoding. -/
def encodeOpt {α : Type} (f : α → Json) : Option α → Json
  | none => .null
  | some a => f a

/-- serde decoding of `Option<T>`. -/
def decodeOpt {α : Type} (f : Json → Option α) : Json → Option (Option α)
  | .null => some none
  | j => (f j).map some

/-- `AgentId` is `#[serde(transparent)]`: the UUID's hyphenated string. -/
def encodeAgentId (a : AgentId) : Json := .str ⟨a.uuid.print⟩

def decodeAgentId : Json → Option AgentId
  | .str s => (Uuid.parse s.data).map AgentId.mk
  | _ => none

/-- Externally tagged `Auth`: `{"Key": secret}` or `"Anonymous"`. -/
def encodeAuth : Auth → Json
  | .key s => .obj [("Key", .str s)]
  | .anonymous => .str "Anonymous"

def decodeAuth : Json → Option Auth
  | .obj [("Key", .str s)] => some (.key s)
  | .str "Anonymous" => some .anonymous
  | _ => none

def encodeVersion (v : Version) : Json := .str ⟨v.print⟩

def decodeVersion : Json → Option Version
  | .str s => Version.parse s.data
  | _ => none

def encodeIp (ip : IpAddr) : Json := .str ⟨ip.print⟩

def decodeIp : Json → Option IpAddr
  | .str s => IpAddr.parse s.data
  | _ => none

def decodeString : Json → Option String
  | .str s => some s
  | _ => none

/-- Decode an unsigned integer bounded by its machine width (serde_json
range-checks `u16`/`u32`/`u64` on deserialization). -/
def decodeNatLt (bound : Nat) : Json → Option Nat
  | .num n => if n < bound then some n else none
  | _ => none

def encodeLocalInfo (li : LocalInfo) : Json :=
  .obj [("ip", encodeIp li.ip), ("port", .num li.port)]

def decodeLocalInfo : Json → Option LocalInfo
  | .obj fs =>
    match (fs.lookup "ip").bind decodeIp,
        (fs.lookup "port").bind (decodeNatLt (2 ^ 16)) with
    | some ip, some port => some ⟨ip, port⟩
    | _, _ => none
  | _ => none

def encodeServiceInfo (si : ServiceInfo) : Json :=
  .obj [("target_ip", encodeIp si.target_ip), ("target_port", .num si.target_port)]

def decodeServiceInfo : Json → Option ServiceInfo
  | .obj fs =>
    match (fs.lookup "target_ip").bind decodeIp,
        (fs.lookup "target_port").bind (decodeNatLt (2 ^ 16)) with
    | some ip, some port => some ⟨ip, port⟩
    | _, _ => none
  | _ => none

def encodeEncryption (e : Encryption) : Json :=
  .obj [("method", .str e.method), ("key", .str e.key)]

def decodeEncryption : Json → Option Encryption
  | .obj fs =>
    match (fs.lookup "method").bind decodeString,
        (fs.lookup "key").bind decodeString with
    | some m, some k => some ⟨m, k⟩
    | _, _ => none
  | _ => none

/-- Serde serialization of `AgentHandshake`: a JSON object with the nine
fields under their exact names, in declaration order. -/
def encodeAgentHandshake (h : AgentHandshake) : Json :=
  .obj [("agent_id", encodeAgentId h.agent_id),
        ("agent_name", encodeOpt Json.str h.agent_name),
        ("auth", encodeAuth h.auth),
        ("version", encodeOpt encodeVersion h.version),
        ("local_info", encodeOpt encodeLocalInfo h.local_info),
        ("service_info", encodeOpt encodeServiceInfo h.service_info),
        ("encryption", encodeOpt encodeEncryption h.encryption),
        ("heartbeat_interval", .num h.heartbeat_interval),
        ("timestamp", .num h.timestamp)]

/-- Serde deserialization of `AgentHandshake`: reads the nine named
fields from the object (unknown extra fields are ignored, as serde does
by default), failing if any is missing or ill-typed. -/
def decodeAgentHandshake (j : Json) : Option AgentHandshake :=
  match j with
  | .obj fs =>
    match (fs.lookup "agent_id").bind decodeAgentId,
        (fs.lookup "agent_name").bind (decodeOpt decodeString),
        (fs.lookup "auth").bind decodeAuth,
        (fs.lookup "version").bind (decodeOpt decodeVersion),
        (fs.lookup "local_info").bind (decodeOpt decodeLocalInfo),
        (fs.lookup "service_info").bind (decodeOpt decodeServiceInfo),
        (fs.lookup "encryption").bind (decodeOpt decodeEncryption),
        (fs.lookup "heartbeat_interval").bind (decodeNatLt (2 ^ 32)),
        (fs.lookup "timestamp").bind (decodeNatLt (2 ^ 64)) with
    | some aid, some aname, some auth, some ver, some li, some si, some enc,
        some hb, some ts =>
      some ⟨aid, aname, auth, ver, li, si, enc, hb, ts⟩
    | _, _, _, _, _, _, _, _, _ => none
  | _ => none

/-- A concrete handshake exercising every optional field (mirroring the
repository's serialization test values). -/
def sampleHandshake : AgentHandshake :=
  { agent_id := ⟨⟨19088743, 4660, 22136, 43981, 1250999896491⟩⟩
    agent_name := some "edge-agent"
    auth := .key "secret-key"
    version := some ⟨1, 0, 0, [['r', 'c'], ['1']], [['0', '0', '7']]⟩
    local_info := some ⟨.v4 127 0 0 1, 8080⟩
    service_info := some ⟨.v6 8193 3512 0 0 0 0 2 1, 9000⟩
    encryption := some ⟨"AES-256", "encryption-key"⟩
    heartbeat_interval := 5000
    timestamp := 1631234567890 }

/-! ### Behaviour of the `select_ok` race -/

/-- If every raced result is an error, `select_ok` returns the error of
the last future to complete. -/
theorem selectOk_all_errors {ε α : Type} (rs : List (Except ε α))
    (hne : rs ≠ []) (h : ∀ r ∈ rs, ∃ e, r = .error e) :
    selectOk rs = some (rs.getLast hne) := by
  induction rs with
  | nil => exact absurd rfl hne
  | cons r rs ih =>
    cases rs with
    | nil => simp [selectOk]
    | cons r2 rs2 =>
      obtain ⟨e, he⟩ := h r (by simp)
      subst he
      rw [show selectOk (Except.error e :: r2 :: rs2) = selectOk (r2 :: rs2) from rfl]
      rw [ih (by simp) (fun x hx => h x (by simp [hx]))]
      simp [List.getLast_cons]

/-- The first `Ok` in completion order wins the `select_ok` race,
whatever comes after it. -/
theorem selectOk_first_ok {ε α : Type} (errs : List (Except ε α)) (x : α)
    (rest : List (Except ε α)) (h : ∀ r ∈ errs, ∃ e, r = .error e) :
    selectOk (errs ++ .ok x :: rest) = some (.ok x) := by
  induction errs with
  | nil =>
    cases rest with
    | nil => rfl
    | cons r rs => rfl
  | cons r errs ih =>
    obtain ⟨e, he⟩ := h r (by simp)
    subst he
    have hne : errs ++ Except.ok x :: rest ≠ [] := by simp
    rcases hq : errs ++ Except.ok x :: rest with _ | ⟨q, qs⟩
    · exact absurd hq hne
    · rw [List.cons_append, hq]
      rw [show selectOk (Except.error e :: q :: qs) = selectOk (q :: qs) from rfl]
      rw [← hq]
      exact ih fun r hr => h r (by simp [hr])

/-! ### Claim theorems for the host resolver -/

/-- C3: a single-instance query made by `serves_host` is a positive match
(returning that instance and the client id) iff the query completed
without transport/timeout error, with a parseable body, HTTP status 200
and a present (non-null) `client_id`; every other combination is a
negative (error) result for that instance. -/
theorem servesHost_positive_iff (inst : Instance) (out : QueryOutcome)
    (r : Instance × ClientId) :
    servesHost inst out = .ok r ↔
      out = .response 200 (.parsed (some r.2)) ∧ r.1 = inst := by
  obtain ⟨ri, rc⟩ := r
  cases out with
  | transportError m => simp [servesHost]
  | response status body =>
    cases body with
    | malformed m => simp [servesHost]
    | parsed cid =>
      simp only [servesHost]
      constructor
      · intro h
        split at h
        · next heq =>
          obtain ⟨h1, h2⟩ := Prod.mk.injEq .. ▸ (Except.ok.injEq .. ▸ h)
          cases heq
          simp_all
        · exact absurd h (by simp)
      · rintro ⟨h1, h2⟩
        obtain ⟨hs, hc⟩ : status = 200 ∧ cid = some rc := by
          have := QueryOutcome.response.injEq .. ▸ h1
          obtain ⟨hs, hb⟩ := this
          exact ⟨hs, by cases hb; rfl⟩
        subst hs; subst hc; subst h2; rfl

/-- C4: whenever instance discovery yields an empty instance set (in
particular when no discovery DNS name is configured), `instance_for_host`
fails with `DoesNotServeHost` under *every* query environment `env` — the
result does not depend on any per-instance query, i.e. none is needed. -/
theorem instanceForHost_no_instances (cfg : Config)
    (resolve : String → Except String (List IpAddr)) (host : String)
    (h : getInstances cfg resolve = .ok []) :
    ∀ env, instanceForHost cfg resolve host env = .error .doesNotServeHost := by
  intro env
  simp [instanceForHost, h]

/-- Witness for `instanceForHost_no_instances`: a configuration with no
discovery DNS name discovers no instances, and resolution fails with
`DoesNotServeHost` for a concrete environment. -/
theorem instanceForHost_no_instances_witness :
    instanceForHost ⟨none, 10002⟩ (fun _ => .ok []) "a.example.com"
      (fun _ _ => []) = .error .doesNotServeHost :=
  instanceForHost_no_instances ⟨none, 10002⟩ (fun _ => .ok []) "a.example.com"
    rfl (fun _ _ => [])

/-- C5: `get_instances` returns `Ok []` when no discovery DNS name is
configured; with a configured name, a resolver failure surfaces as the
`Resolver` error kind (never as a successful empty sequence); and on
resolver success each resolved address becomes exactly one `Instance`,
in order. -/
theorem getInstances_spec (cfg : Config)
    (resolve : String → Except String (List IpAddr)) :
    (cfg.gossip_dns_host = none → getInstances cfg resolve = .ok []) ∧
    (∀ dns e, cfg.gossip_dns_host = some dns → resolve dns = .error e →
      getInstances cfg resolve = .error (.resolver e)) ∧
    (∀ dns ips, cfg.gossip_dns_host = some dns → resolve dns = .ok ips →
      getInstances cfg resolve = .ok (ips.map Instance.mk)) := by
  refine ⟨fun h => by simp [getInstances, h], ?_, ?_⟩
  · intro dns e hdns hres
    simp [getInstances, hdns, hres]
  · intro dns ips hdns hres
    simp [getInstances, hdns, hres]

/-- Witness for `getInstances_spec`: all three branches at concrete
configurations — gossip disabled, a failing resolver, and a resolver
returning two addresses. -/
theorem getInstances_spec_witness :
    getInstances ⟨none, 10002⟩ (fun _ => .ok []) = .ok [] ∧
    getInstances ⟨some "portal.internal", 10002⟩
      (fun _ => .error "no nameserver") = .error (.resolver "no nameserver") ∧
    getInstances ⟨some "portal.internal", 10002⟩
      (fun _ => .ok [.v4 10 0 0 1, .v4 10 0 0 2])
      = .ok [⟨.v4 10 0 0 1⟩, ⟨.v4 10 0 0 2⟩] :=
  ⟨(getInstances_spec ⟨none, 10002⟩ (fun _ => .ok [])).1 rfl,
   (getInstances_spec ⟨some "portal.internal", 10002⟩
      (fun _ => .error "no nameserver")).2.1 "portal.internal" "no nameserver" rfl rfl,
   (getInstances_spec ⟨some "portal.internal", 10002⟩
      (fun _ => .ok [.v4 10 0 0 1, .v4 10 0 0 2])).2.2 "portal.internal"
      [.v4 10 0 0 1, .v4 10 0 0 2] rfl rfl⟩

/-- C1 (counterexample): with one discovered instance whose (only, hence
last-completing) query fails with a transport error, every sibling query
is negative, yet `instance_for_host` fails with the `Request` error kind
— not `DoesNotServeHost`: `select_ok` propagates the error of the last
future to fail, so the claim as stated is false. -/
theorem instanceForHost_all_negative_counterexample :
    instanceForHost ⟨some "portal.internal", 10002⟩
      (fun _ => .ok [.v4 10 0 0 1]) "a.example.com"
      (fun _ instances =>
        instances.map fun i => (i, .transportError "connection timed out"))
      = .error (.request "connection timed out") ∧
    NetError.request "connection timed out" ≠ NetError.doesNotServeHost :=
  ⟨rfl, by decide⟩

/-- C1 (amended): when discovery succeeds with a non-empty instance set
(`env` schedules one query per instance) and every sibling query yields a
negative result, `instance_for_host` fails with exactly the error of the
query that completed last: `DoesNotServeHost` iff that query received an
HTTP response other than a parseable 200-with-present-client-id, and the
`Request` error of that query otherwise. -/
theorem instanceForHost_all_negative (cfg : Config)
    (resolve : String → Except String (List IpAddr)) (host : String)
    (env : String → List Instance → List (Instance × QueryOutcome))
    (instances : List Instance) (p : Instance × QueryOutcome)
    (hgi : getInstances cfg resolve = .ok instances)
    (hperm : ((env host instances).map Prod.fst).Perm instances)
    (hlast : (env host instances).getLast? = some p)
    (hneg : ∀ q ∈ env host instances, ∃ e, servesHost q.1 q.2 = .error e) :
    instanceForHost cfg resolve host env = servesHost p.1 p.2 ∧
    ∃ e, instanceForHost cfg resolve host env = .error e := by
  have hne : env host instances ≠ [] := by
    intro h; rw [h] at hlast; exact Option.noConfusion hlast
  have hilen : ¬ instances.length = 0 := by
    have := hperm.length_eq
    simp only [List.length_map] at this
    rw [← this]
    simpa [List.length_eq_zero] using hne
  have hmapne : (env host instances).map (fun q => servesHost q.1 q.2) ≠ [] := by
    simpa [List.map_eq_nil_iff] using hne
  have hsel := selectOk_all_errors
    ((env host instances).map fun q => servesHost q.1 q.2) hmapne
    (by
      intro r hr
      obtain ⟨q, hq, rfl⟩ := List.mem_map.mp hr
      exact hneg q hq)
  have hlastmap : ((env host instances).map fun q => servesHost q.1 q.2).getLast hmapne
      = servesHost p.1 p.2 := by
    have := List.getLast?_map (fun q : Instance × QueryOutcome => servesHost q.1 q.2)
      (env host instances)
    rw [List.getLast?_eq_getLast _ hmapne, hlast] at this
    exact Option.some.injEq .. ▸ this
  have hmain : instanceForHost cfg resolve host env = servesHost p.1 p.2 := by
    simp only [instanceForHost, hgi, hilen, if_false, hsel, hlastmap]
  refine ⟨hmain, ?_⟩
  have hpm : p ∈ env host instances := by
    obtain ⟨h', rfl⟩ := List.mem_getLast?_eq_getLast (Option.mem_def.mpr hlast)
    exact List.getLast_mem h'
  obtain ⟨e, he⟩ := hneg p hpm
  exact ⟨e, hmain.trans he⟩

/-- Witness for `instanceForHost_all_negative`: two discovered instances,
queries completing in the reverse of discovery order — a 404 first, then
a transport error — make the call fail with that last transport error. -/
theorem instanceForHost_all_negative_witness :
    instanceForHost ⟨some "portal.internal", 10002⟩
      (fun _ => .ok [.v4 10 0 0 1, .v4 10 0 0 2]) "a.example.com"
      (fun _ _ => [(⟨.v4 10 0 0 2⟩, .response 404 (.parsed none)),
                   (⟨.v4 10 0 0 1⟩, .transportError "connection reset")])
      = .error (.request "connection reset") := by
  have h := instanceForHost_all_negative ⟨some "portal.internal", 10002⟩
    (fun _ => .ok [.v4 10 0 0 1, .v4 10 0 0 2]) "a.example.com"
    (fun _ _ => [(⟨.v4 10 0 0 2⟩, .response 404 (.parsed none)),
                 (⟨.v4 10 0 0 1⟩, .transportError "connection reset")])
    [⟨.v4 10 0 0 1⟩, ⟨.v4 10 0 0 2⟩]
    (⟨.v4 10 0 0 1⟩, .transportError "connection reset")
    rfl (by decide) rfl
    (by
      intro q hq
      simp only [List.mem_cons, List.not_mem_nil, or_false] at hq
      rcases hq with rfl | rfl
      · exact ⟨.doesNotServeHost, rfl⟩
      · exact ⟨.request "connection reset", rfl⟩)
  exact h.1.trans rfl

/-- C2: when discovery succeeds (`env` schedules one query per discovered
instance) and exactly one query is a positive match — all queries before
it and after it in completion order being negative (timeouts and
transport errors included, since both surface as negative `Request`
results) — `instance_for_host` returns that instance and its client id,
wherever the positive match sits in the completion order: no sibling
query's failure aborts the resolution. -/
theorem instanceForHost_unique_positive (cfg : Config)
    (resolve : String → Except String (List IpAddr)) (host : String)
    (env : String → List Instance → List (Instance × QueryOutcome))
    (instances : List Instance) (pre post : List (Instance × QueryOutcome))
    (i0 : Instance) (out0 : QueryOutcome) (c0 : ClientId)
    (hgi : getInstances cfg resolve = .ok instances)
    (hperm : ((env host instances).map Prod.fst).Perm instances)
    (hsplit : env host instances = pre ++ (i0, out0) :: post)
    (hpre : ∀ q ∈ pre, ∃ e, servesHost q.1 q.2 = .error e)
    (hpost : ∀ q ∈ post, ∃ e, servesHost q.1 q.2 = .error e)
    (hpos : servesHost i0 out0 = .ok (i0, c0)) :
    instanceForHost cfg resolve host env = .ok (i0, c0) := by
  have hilen : ¬ instances.length = 0 := by
    have := hperm.length_eq
    simp only [List.length_map] at this
    rw [← this, hsplit]
    simp
  have hmap : (env host instances).map (fun q => servesHost q.1 q.2)
      = (pre.map fun q => servesHost q.1 q.2) ++ .ok (i0, c0)
        :: (post.map fun q => servesHost q.1 q.2) := by
    rw [hsplit, List.map_append, List.map_cons, hpos]
  have hsel := selectOk_first_ok (pre.map fun q => servesHost q.1 q.2) (i0, c0)
    (post.map fun q => servesHost q.1 q.2)
    (by
      intro r hr
      obtain ⟨q, hq, rfl⟩ := List.mem_map.mp hr
      exact hpre q hq)
  simp only [instanceForHost, hgi, hilen, if_false, hmap, hsel]

/-- Witness for `instanceForHost_unique_positive`: three discovered
instances; in completion order a timed-out query, then the positive
200-with-client-id match, then a 200-with-null-client-id — the resolver
returns the positive instance and its client id. -/
theorem instanceForHost_unique_positive_witness :
    instanceForHost ⟨some "portal.internal", 10002⟩
      (fun _ => .ok [.v4 10 0 0 1, .v4 10 0 0 2, .v4 10 0 0 3]) "a.example.com"
      (fun _ _ => [(⟨.v4 10 0 0 3⟩, .transportError "operation timed out"),
                   (⟨.v4 10 0 0 2⟩, .response 200 (.parsed (some ⟨⟨7, 7, 7, 7, 7⟩⟩))),
                   (⟨.v4 10 0 0 1⟩, .response 200 (.parsed none))])
      = .ok (⟨.v4 10 0 0 2⟩, ⟨⟨7, 7, 7, 7, 7⟩⟩) := by
  exact instanceForHost_unique_positive ⟨some "portal.internal", 10002⟩
    (fun _ => .ok [.v4 10 0 0 1, .v4 10 0 0 2, .v4 10 0 0 3]) "a.example.com"
    (fun _ _ => [(⟨.v4 10 0 0 3⟩, .transportError "operation timed out"),
                 (⟨.v4 10 0 0 2⟩, .response 200 (.parsed (some ⟨⟨7, 7, 7, 7, 7⟩⟩))),
                 (⟨.v4 10 0 0 1⟩, .response 200 (.parsed none))])
    [⟨.v4 10 0 0 1⟩, ⟨.v4 10 0 0 2⟩, ⟨.v4 10 0 0 3⟩]
    [(⟨.v4 10 0 0 3⟩, .transportError "operation timed out")]
    [(⟨.v4 10 0 0 1⟩, .response 200 (.parsed none))]
    ⟨.v4 10 0 0 2⟩ (.response 200 (.parsed (some ⟨⟨7, 7, 7, 7, 7⟩⟩))) ⟨⟨7, 7, 7, 7, 7⟩⟩
    rfl (by decide) rfl
    (by
      intro q hq
      simp only [List.mem_cons, List.not_mem_nil, or_false] at hq
      rcases hq with rfl
      exact ⟨.request "operation timed out", rfl⟩)
    (by
      intro q hq
      simp only [List.mem_cons, List.not_mem_nil, or_false] at hq
      rcases hq with rfl
      exact ⟨.doesNotServeHost, rfl⟩)
    rfl

/-! ### Digit-string lemmas -/

theorem decVal_hexChar (d : Nat) (h : d < 10) : decVal (hexChar d) = some d := by
  revert h; revert d; decide

theorem hexVal_hexChar (d : Nat) (h : d < 16) : hexVal (hexChar d) = some d := by
  revert h; revert d; decide

theorem hexChar_ne_dot (d : Nat) (h : d < 16) : hexChar d ≠ '.' := by
  revert h; revert d; decide

theorem hexChar_ne_dash (d : Nat) (h : d < 16) : hexChar d ≠ '-' := by
  revert h; revert d; decide

theorem hexChar_ne_colon (d : Nat) (h : d < 16) : hexChar d ≠ ':' := by
  revert h; revert d; decide

theorem hexChar_ne_plus (d : Nat) (h : d < 16) : hexChar d ≠ '+' := by
  revert h; revert d; decide

theorem hexChar_ne_zero (d : Nat) (h : d < 16) (h0 : 0 < d) : hexChar d ≠ '0' := by
  revert h0; revert h; revert d; decide

theorem digitsLE_lt (b : Nat) (hb : 0 < b) (f : Nat) :
    ∀ n d, d ∈ digitsLE b f n → d < b := by
  induction f with
  | zero => intro n d hd; simp [digitsLE] at hd
  | succ f ih =>
    intro n d hd
    cases n with
    | zero => simp [digitsLE] at hd
    | succ m =>
      simp only [digitsLE, List.mem_cons] at hd
      rcases hd with rfl | hd
      · exact Nat.mod_lt _ hb
      · exact ih _ _ hd

theorem digitsLE_ne_nil (b f n : Nat) (hn : 0 < n) (hf : n ≤ f) :
    digitsLE b f n ≠ [] := by
  cases f with
  | zero => omega
  | succ f =>
    cases n with
    | zero => omega
    | succ m => simp [digitsLE]

theorem foldl_digitsLE (b : Nat) (hb : 2 ≤ b) (f : Nat) : ∀ n a, n ≤ f →
    List.foldl (fun x d => x * b + d) a ((digitsLE b f n).reverse)
      = a * b ^ (digitsLE b f n).length + n := by
  induction f with
  | zero =>
    intro n a hn
    have : n = 0 := by omega
    subst this
    simp [digitsLE]
  | succ f ih =>
    intro n a hn
    cases n with
    | zero => simp [digitsLE]
    | succ m =>
      have hq : (m + 1) / b ≤ f := by
        have := Nat.div_lt_self (by omega : 0 < m + 1) (by omega : 1 < b)
        omega
      simp only [digitsLE, List.reverse_cons, List.foldl_append, List.foldl_cons,
        List.foldl_nil, List.length_cons]
      rw [ih _ a hq]
      have hdm := Nat.div_add_mod (m + 1) b
      calc (a * b ^ (digitsLE b f ((m + 1) / b)).length + (m + 1) / b) * b
          + (m + 1) % b
          = a * (b ^ (digitsLE b f ((m + 1) / b)).length * b)
            + (b * ((m + 1) / b) + (m + 1) % b) := by ring
        _ = a * b ^ ((digitsLE b f ((m + 1) / b)).length + 1) + (m + 1) := by
            rw [hdm, ← Nat.pow_succ]

theorem digitsLE_length_le (b : Nat) (hb : 2 ≤ b) (f : Nat) :
    ∀ n k, n < b ^ k → (digitsLE b f n).length ≤ k := by
  induction f with
  | zero => intro n k _; simp [digitsLE]
  | succ f ih =>
    intro n k hk
    cases n with
    | zero => simp [digitsLE]
    | succ m =>
      cases k with
      | zero => simp at hk
      | succ k =>
        simp only [digitsLE, List.length_cons, Nat.succ_le_succ_iff]
        refine ih _ k ?_
        have hbpos : 0 < b := by omega
        rw [Nat.div_lt_iff_lt_mul hbpos]
        calc m + 1 < b ^ (k + 1) := hk
          _ = b ^ k * b := by rw [Nat.pow_succ]

theorem digitsLE_getLast? (b : Nat) (hb : 2 ≤ b) (f : Nat) :
    ∀ n, 0 < n → n ≤ f →
      ∃ d, (digitsLE b f n).getLast? = some d ∧ d ≠ 0 ∧ d < b := by
  induction f with
  | zero => intro n h1 h2; omega
  | succ f ih =>
    intro n h1 h2
    cases n with
    | zero => omega
    | succ m =>
      simp only [digitsLE]
      by_cases hq : (m + 1) / b = 0
      · have htail : digitsLE b f ((m + 1) / b) = [] := by
          rw [hq]; cases f <;> rfl
        rw [htail]
        have hlt : m + 1 < b := by
          by_contra hge
          push_neg at hge
          have hone : 1 ≤ (m + 1) / b := (Nat.one_le_div_iff (by omega)).mpr hge
          rw [hq] at hone
          exact absurd hone (by decide)
        refine ⟨(m + 1) % b, by simp, ?_, Nat.mod_lt _ (by omega)⟩
        rw [Nat.mod_eq_of_lt hlt]
        omega
      · have hqle : (m + 1) / b ≤ f :=
          Nat.lt_succ_iff.mp (Nat.lt_of_lt_of_le
            (Nat.div_lt_self (by omega) (by omega)) h2)
        obtain ⟨d, hd, hdne, hdb⟩ := ih ((m + 1) / b) (Nat.pos_of_ne_zero hq) hqle
        rcases htail : digitsLE b f ((m + 1) / b) with _ | ⟨t, ts⟩
        · rw [htail] at hd; exact absurd hd (by simp)
        · rw [htail] at hd
          exact ⟨d, by rw [List.getLast?_cons_cons]; exact hd, hdne, hdb⟩

theorem hexDigitsLE_length (k : Nat) : ∀ n, (hexDigitsLE k n).length = k := by
  induction k with
  | zero => intro n; rfl
  | succ k ih => intro n; simp [hexDigitsLE, ih]

theorem hexDigitsLE_lt (k : Nat) : ∀ n d, d ∈ hexDigitsLE k n → d < 16 := by
  induction k with
  | zero => intro n d hd; simp [hexDigitsLE] at hd
  | succ k ih =>
    intro n d hd
    simp only [hexDigitsLE, List.mem_cons] at hd
    rcases hd with rfl | hd
    · exact Nat.mod_lt _ (by omega)
    · exact ih _ _ hd

theorem foldl_hexDigitsLE (k : Nat) : ∀ n a, n < 16 ^ k →
    List.foldl (fun x d => x * 16 + d) a ((hexDigitsLE k n).reverse)
      = a * 16 ^ k + n := by
  induction k with
  | zero =>
    intro n a hn
    have : n = 0 := by simpa using hn
    subst this
    simp [hexDigitsLE]
  | succ k ih =>
    intro n a hn
    have hq : n / 16 < 16 ^ k := by
      rw [Nat.div_lt_iff_lt_mul (by omega : 0 < 16)]
      calc n < 16 ^ (k + 1) := hn
        _ = 16 ^ k * 16 := by rw [Nat.pow_succ]
    simp only [hexDigitsLE, List.reverse_cons, List.foldl_append, List.foldl_cons,
      List.foldl_nil]
    rw [ih _ a hq]
    have := Nat.div_add_mod n 16
    ring_nf
    omega

theorem mapOption_map (f : Char → Option Nat) (g : Nat → Char) (L : List Nat)
    (h : ∀ x ∈ L, f (g x) = some x) : mapOption f (L.map g) = some L := by
  induction L with
  | nil => rfl
  | cons x xs ih =>
    simp only [List.map_cons, mapOption]
    rw [h x (by simp), ih fun y hy => h y (by simp [hy])]

/-- Print-parse round trip for the variable-width digit rendering, any
base. -/
theorem parseDigitsBE_digits (b : Nat) (dv : Char → Option Nat) (hb : 2 ≤ b)
    (hdv : ∀ d, d < b → dv (hexChar d) = some d) (n : Nat) (hn : 0 < n) :
    parseDigitsBE b dv (((digitsLE b n n).map hexChar).reverse) = some n := by
  have hne : digitsLE b n n ≠ [] := digitsLE_ne_nil b n n hn le_rfl
  have hrevne : ((digitsLE b n n).map hexChar).reverse ≠ [] := by
    simp only [ne_eq, List.reverse_eq_nil_iff, List.map_eq_nil_iff]
    exact hne
  have hmo : mapOption dv (((digitsLE b n n).map hexChar).reverse)
      = some ((digitsLE b n n).reverse) := by
    rw [← List.map_reverse]
    exact mapOption_map dv hexChar ((digitsLE b n n).reverse) fun x hx =>
      hdv x (digitsLE_lt b (by omega) n n x (List.mem_reverse.mp hx))
  simp only [parseDigitsBE, List.isEmpty_iff]
  rw [if_neg hrevne, hmo, Option.map_some']
  rw [foldl_digitsLE b hb n n 0 le_rfl]
  simp

/-- Print-parse round trip for decimal `Display` of `Nat`. -/
theorem parseDigitsBE_natPrint (n : Nat) :
    parseDigitsBE 10 decVal (natPrint n) = some n := by
  by_cases hn : n = 0
  · subst hn; decide
  · simp only [natPrint, hn, if_false]
    exact parseDigitsBE_digits 10 decVal (by omega) decVal_hexChar n (by omega)

/-- Print-parse round trip for one variable-width hex segment. -/
theorem parseDigitsBE_segPrint (n : Nat) :
    parseDigitsBE 16 hexVal (segPrint n) = some n := by
  by_cases hn : n = 0
  · subst hn; decide
  · simp only [segPrint, hn, if_false]
    exact parseDigitsBE_digits 16 hexVal (by omega)
      (fun d hd => hexVal_hexChar d hd) n (by omega)

/-- Print-parse round trip for fixed-width lowercase hex. -/
theorem parseDigitsBE_hexPrint (k n : Nat) (hk : 0 < k) (hn : n < 16 ^ k) :
    parseDigitsBE 16 hexVal (hexPrint k n) = some n := by
  have hne : hexDigitsLE k n ≠ [] := by
    intro h
    have := hexDigitsLE_length k n
    rw [h] at this
    simp at this
    omega
  have hrevne : ((hexDigitsLE k n).map hexChar).reverse ≠ [] := by
    simp only [ne_eq, List.reverse_eq_nil_iff, List.map_eq_nil_iff]
    exact hne
  have hmo : mapOption hexVal (((hexDigitsLE k n).map hexChar).reverse)
      = some ((hexDigitsLE k n).reverse) := by
    rw [← List.map_reverse]
    exact mapOption_map hexVal hexChar ((hexDigitsLE k n).reverse) fun x hx =>
      hexVal_hexChar x (hexDigitsLE_lt k n x (List.mem_reverse.mp hx))
  simp only [hexPrint, parseDigitsBE, List.isEmpty_iff]
  rw [if_neg hrevne, hmo, Option.map_some']
  rw [foldl_hexDigitsLE k n 0 hn]
  simp

theorem hexPrint_length (k n : Nat) : (hexPrint k n).length = k := by
  simp [hexPrint, hexDigitsLE_length]

theorem natPrint_mem (n : Nat) (c : Char) (hc : c ∈ natPrint n) :
    ∃ d, d < 10 ∧ c = hexChar d := by
  by_cases hn : n = 0
  · subst hn
    simp [natPrint] at hc
    exact ⟨0, by omega, hc⟩
  · simp only [natPrint, hn, if_false, List.mem_reverse, List.mem_map] at hc
    obtain ⟨d, hd, rfl⟩ := hc
    exact ⟨d, digitsLE_lt 10 (by omega) n n d hd, rfl⟩

theorem segPrint_mem (n : Nat) (c : Char) (hc : c ∈ segPrint n) :
    ∃ d, d < 16 ∧ c = hexChar d := by
  by_cases hn : n = 0
  · subst hn
    simp [segPrint] at hc
    exact ⟨0, by omega, hc⟩
  · simp only [segPrint, hn, if_false, List.mem_reverse, List.mem_map] at hc
    obtain ⟨d, hd, rfl⟩ := hc
    exact ⟨d, digitsLE_lt 16 (by omega) n n d hd, rfl⟩

theorem hexPrint_mem (k n : Nat) (c : Char) (hc : c ∈ hexPrint k n) :
    ∃ d, d < 16 ∧ c = hexChar d := by
  simp only [hexPrint, List.mem_reverse, List.mem_map] at hc
  obtain ⟨d, hd, rfl⟩ := hc
  exact ⟨d, hexDigitsLE_lt k n d hd, rfl⟩

theorem natPrint_not_dot (n : Nat) : '.' ∉ natPrint n := by
  intro hc
  obtain ⟨d, hd, hcd⟩ := natPrint_mem n '.' hc
  exact hexChar_ne_dot d (by omega) hcd.symm

theorem natPrint_not_dash (n : Nat) : '-' ∉ natPrint n := by
  intro hc
  obtain ⟨d, hd, hcd⟩ := natPrint_mem n '-' hc
  exact hexChar_ne_dash d (by omega) hcd.symm

theorem natPrint_not_plus (n : Nat) : '+' ∉ natPrint n := by
  intro hc
  obtain ⟨d, hd, hcd⟩ := natPrint_mem n '+' hc
  exact hexChar_ne_plus d (by omega) hcd.symm

theorem hexPrint_not_dash (k n : Nat) : '-' ∉ hexPrint k n := by
  intro hc
  obtain ⟨d, hd, hcd⟩ := hexPrint_mem k n '-' hc
  exact hexChar_ne_dash d hd hcd.symm

theorem natPrint_ne_nil (n : Nat) : natPrint n ≠ [] := by
  by_cases hn : n = 0
  · subst hn; decide
  · simp only [natPrint, hn, if_false, ne_eq, List.reverse_eq_nil_iff,
      List.map_eq_nil_iff]
    exact digitsLE_ne_nil 10 n n (by omega) le_rfl

theorem natPrint_length_le (n k : Nat) (hk : 0 < k) (hn : n < 10 ^ k) :
    (natPrint n).length ≤ k := by
  by_cases h0 : n = 0
  · subst h0; simpa [natPrint] using hk
  · simp only [natPrint, h0, if_false, List.length_reverse, List.length_map]
    exact digitsLE_length_le 10 (by omega) n n k hn

theorem segPrint_length_le (n k : Nat) (hk : 0 < k) (hn : n < 16 ^ k) :
    (segPrint n).length ≤ k := by
  by_cases h0 : n = 0
  · subst h0; simpa [segPrint] using hk
  · simp only [segPrint, h0, if_false, List.length_reverse, List.length_map]
    exact digitsLE_length_le 16 (by omega) n n k hn

theorem natPrint_head_ne_zero (n : Nat) (hn : 0 < n) (c : Char)
    (rest : List Char) (hnp : natPrint n = c :: rest) : c ≠ '0' := by
  obtain ⟨d, hd, hdne, hdb⟩ :=
    digitsLE_getLast? 10 (by omega) n n hn le_rfl
  have hhead : (natPrint n).head? = some (hexChar d) := by
    simp only [natPrint, if_neg (by omega : ¬ n = 0)]
    rw [List.head?_reverse, List.getLast?_map, hd]
    rfl
  rw [hnp] at hhead
  simp only [List.head?_cons, Option.some.injEq] at hhead
  subst hhead
  exact hexChar_ne_zero d (by omega) (by omega)

theorem leadingZero_natPrint (n : Nat) : leadingZero (natPrint n) = false := by
  by_cases hn : n = 0
  · subst hn; decide
  · rcases hnp : natPrint n with _ | ⟨c, rest⟩
    · rfl
    · have hc : c ≠ '0' := natPrint_head_ne_zero n (by omega) c rest hnp
      cases rest with
      | nil => rfl
      | cons x xs => simp [leadingZero, hc]

/-- Print-parse round trip for a semver numeric component. -/
theorem parseNumericIdent_natPrint (n : Nat) (hn : n < 2 ^ 64) :
    parseNumericIdent (natPrint n) = some n := by
  unfold parseNumericIdent
  rw [leadingZero_natPrint]
  simp only [Bool.false_eq_true, if_false]
  rw [parseDigitsBE_natPrint]
  show (if n < 2 ^ 64 then some n else none) = some n
  rw [if_pos hn]

/-! ### Splitting lemmas -/

theorem splitOnChar_ne_nil (sep : Char) (l : List Char) :
    splitOnChar sep l ≠ [] := by
  cases l with
  | nil => simp [splitOnChar]
  | cons c rest =>
    simp only [splitOnChar]
    rcases splitOnChar sep rest with _ | ⟨g, gs⟩
    · simp
    · by_cases h : c = sep <;> simp [h]

theorem splitOnChar_no_sep (sep : Char) (p : List Char) (hp : sep ∉ p) :
    splitOnChar sep p = [p] := by
  induction p with
  | nil => rfl
  | cons c cs ih =>
    have hcs : sep ∉ cs := fun h => hp (by simp [h])
    have hc : ¬ c = sep := fun h => hp (by simp [h])
    simp only [splitOnChar, ih hcs]
    simp [hc]

theorem splitOnChar_append (sep : Char) (p rest : List Char) (hp : sep ∉ p) :
    splitOnChar sep (p ++ sep :: rest) = p :: splitOnChar sep rest := by
  induction p with
  | nil =>
    simp only [List.nil_append, splitOnChar]
    rcases h : splitOnChar sep rest with _ | ⟨g, gs⟩
    · exact absurd h (splitOnChar_ne_nil sep rest)
    · simp
  | cons c cs ih =>
    have hcs : sep ∉ cs := fun h => hp (by simp [h])
    have hc : ¬ c = sep := fun h => hp (by simp [h])
    have ih' := ih hcs
    simp only [List.cons_append, splitOnChar, List.append_eq]
    rw [ih']
    simp [hc]

theorem splitFirst_append_left (sep : Char) (p q : List Char) (hp : sep ∉ p) :
    splitFirst sep (p ++ q)
      = (p ++ (splitFirst sep q).1, (splitFirst sep q).2) := by
  induction p with
  | nil => simp
  | cons c cs ih =>
    have hcs : sep ∉ cs := fun h => hp (by simp [h])
    have hc : ¬ c = sep := fun h => hp (by simp [h])
    simp [splitFirst, hc, ih hcs]

theorem splitFirst_no_sep (sep : Char) (p : List Char) (hp : sep ∉ p) :
    splitFirst sep p = (p, none) := by
  have := splitFirst_append_left sep p [] hp
  simpa [splitFirst] using this

theorem joinIds_mem (sep : Char) (ids : List (List Char)) (c : Char)
    (hc : c ∈ joinIds sep ids) : c = sep ∨ ∃ id ∈ ids, c ∈ id := by
  induction ids with
  | nil => simp [joinIds] at hc
  | cons id ids ih =>
    cases ids with
    | nil => exact Or.inr ⟨id, by simp, by simpa [joinIds] using hc⟩
    | cons id2 ids2 =>
      simp only [joinIds, List.mem_append, List.mem_cons] at hc
      rcases hc with h | h | h
      · exact Or.inr ⟨id, by simp, h⟩
      · exact Or.inl h
      · rcases ih h with h | ⟨x, hx, hcx⟩
        · exact Or.inl h
        · exact Or.inr ⟨x, List.mem_cons_of_mem _ hx, hcx⟩

theorem splitOnChar_joinIds (sep : Char) (ids : List (List Char))
    (hne : ids ≠ []) (hsep : ∀ id ∈ ids, sep ∉ id) :
    splitOnChar sep (joinIds sep ids) = ids := by
  induction ids with
  | nil => exact absurd rfl hne
  | cons id ids ih =>
    cases ids with
    | nil => simpa [joinIds] using splitOnChar_no_sep sep id (hsep id (by simp))
    | cons id2 ids2 =>
      show splitOnChar sep (id ++ sep :: joinIds sep (id2 :: ids2)) = _
      rw [splitOnChar_append sep id _ (hsep id (by simp))]
      rw [ih (by simp) fun x hx => hsep x (List.mem_cons_of_mem _ hx)]

theorem isIdentChar_ne_plus (c : Char) (h : isIdentChar c = true) : c ≠ '+' := by
  intro hc
  subst hc
  revert h
  decide

theorem isIdentChar_ne_dot (c : Char) (h : isIdentChar c = true) : c ≠ '.' := by
  intro hc
  subst hc
  revert h
  decide

/-! ### Leaf print-parse round trips -/

theorem version_parse_print (v : Version) (hv : v.Valid) :
    Version.parse v.print = some v := by
  obtain ⟨hM, hm, hp, hpre, hbuild⟩ := hv
  have hcore_mem : ∀ c ∈ ((natPrint v.major ++ '.' :: natPrint v.minor)
      ++ '.' :: natPrint v.patch), c = '.' ∨ ∃ d, d < 10 ∧ c = hexChar d := by
    intro c hc
    simp only [List.mem_append, List.mem_cons] at hc
    rcases hc with (h | rfl | h) | rfl | h
    · exact Or.inr (natPrint_mem _ c h)
    · exact Or.inl rfl
    · exact Or.inr (natPrint_mem _ c h)
    · exact Or.inl rfl
    · exact Or.inr (natPrint_mem _ c h)
  have hcore_dash : '-' ∉ ((natPrint v.major ++ '.' :: natPrint v.minor)
      ++ '.' :: natPrint v.patch) := by
    intro hc
    rcases hcore_mem '-' hc with h | ⟨d, hd, h⟩
    · exact absurd h (by decide)
    · exact hexChar_ne_dash d (by omega) h.symm
  have hcore_plus : '+' ∉ ((natPrint v.major ++ '.' :: natPrint v.minor)
      ++ '.' :: natPrint v.patch) := by
    intro hc
    rcases hcore_mem '+' hc with h | ⟨d, hd, h⟩
    · exact absurd h (by decide)
    · exact hexChar_ne_plus d (by omega) h.symm
  have hpre_ident : ∀ id ∈ v.pre, ∀ c ∈ id, isIdentChar c = true := by
    intro id hid c hc
    have hok := hpre id hid
    simp only [preIdentOk, Bool.and_eq_true, List.all_eq_true] at hok
    exact hok.1.2 c hc
  have hbuild_ident : ∀ id ∈ v.build, ∀ c ∈ id, isIdentChar c = true := by
    intro id hid c hc
    have hok := hbuild id hid
    simp only [buildIdentOk, Bool.and_eq_true, List.all_eq_true] at hok
    exact hok.2 c hc
  have hpre_plus : '+' ∉ joinIds '.' v.pre := by
    intro hc
    rcases joinIds_mem '.' v.pre '+' hc with h | ⟨id, hid, hcid⟩
    · exact absurd h (by decide)
    · exact isIdentChar_ne_plus '+' (hpre_ident id hid '+' hcid) rfl
  have hpre_dot : ∀ id ∈ v.pre, '.' ∉ id := fun id hid hc =>
    isIdentChar_ne_dot '.' (hpre_ident id hid '.' hc) rfl
  have hbuild_dot : ∀ id ∈ v.build, '.' ∉ id := fun id hid hc =>
    isIdentChar_ne_dot '.' (hbuild_ident id hid '.' hc) rfl
  have hpre_all : v.pre.all preIdentOk = true := List.all_eq_true.mpr hpre
  have hbuild_all : v.build.all buildIdentOk = true := List.all_eq_true.mpr hbuild
  have hcore_split : splitOnChar '.' ((natPrint v.major ++ '.' :: natPrint v.minor)
      ++ '.' :: natPrint v.patch)
      = [natPrint v.major, natPrint v.minor, natPrint v.patch] := by
    simp only [List.append_assoc, List.cons_append]
    rw [splitOnChar_append '.' (natPrint v.major) _ (natPrint_not_dot _),
      splitOnChar_append '.' (natPrint v.minor) _ (natPrint_not_dot _),
      splitOnChar_no_sep '.' (natPrint v.patch) (natPrint_not_dot _)]
  unfold Version.print Version.parse
  by_cases hpe : v.pre = [] <;> by_cases hbe : v.build = []
  · rw [if_pos hpe, if_pos hbe, List.append_nil, List.append_nil]
    rw [splitFirst_no_sep '+' _ hcore_plus]
    simp only
    rw [splitFirst_no_sep '-' _ hcore_dash]
    simp only [hcore_split,
      parseNumericIdent_natPrint v.major hM, parseNumericIdent_natPrint v.minor hm,
      parseNumericIdent_natPrint v.patch hp]
    have hveq : Version.mk v.major v.minor v.patch [] [] = v := by
      nth_rewrite 2 [← hbe]
      rw [← hpe]
    rw [hveq]
  · rw [if_pos hpe, if_neg hbe, List.append_nil]
    rw [splitFirst_append_left '+' _ _ hcore_plus]
    have hsfp : splitFirst '+' ('+' :: joinIds '.' v.build)
        = ([], some (joinIds '.' v.build)) := by simp [splitFirst]
    simp only [hsfp, List.append_nil]
    rw [splitFirst_no_sep '-' _ hcore_dash]
    simp only [hcore_split,
      parseNumericIdent_natPrint v.major hM, parseNumericIdent_natPrint v.minor hm,
      parseNumericIdent_natPrint v.patch hp]
    rw [splitOnChar_joinIds '.' v.build hbe hbuild_dot]
    simp only [hbuild_all, if_pos]
    have hveq : Version.mk v.major v.minor v.patch [] v.build = v := by
      rw [← hpe]
    rw [hveq]
  · rw [if_neg hpe, if_pos hbe, List.append_nil]
    have hvp_plus : '+' ∉ ((natPrint v.major ++ '.' :: natPrint v.minor)
        ++ '.' :: natPrint v.patch) ++ '-' :: joinIds '.' v.pre := by
      intro hc
      rcases List.mem_append.mp hc with h | h
      · exact hcore_plus h
      · rcases List.mem_cons.mp h with h2 | h2
        · exact absurd h2 (by decide)
        · exact hpre_plus h2
    rw [splitFirst_no_sep '+' _ hvp_plus]
    simp only
    rw [splitFirst_append_left '-' _ _ hcore_dash]
    have hsfd : splitFirst '-' ('-' :: joinIds '.' v.pre)
        = ([], some (joinIds '.' v.pre)) := by simp [splitFirst]
    simp only [hsfd, List.append_nil]
    simp only [hcore_split,
      parseNumericIdent_natPrint v.major hM, parseNumericIdent_natPrint v.minor hm,
      parseNumericIdent_natPrint v.patch hp]
    rw [splitOnChar_joinIds '.' v.pre hpe hpre_dot]
    simp only [hpre_all, if_pos]
    have hveq : Version.mk v.major v.minor v.patch v.pre [] = v := by
      rw [← hbe]
    rw [hveq]
  · rw [if_neg hpe, if_neg hbe]
    have hvp_plus : '+' ∉ ((natPrint v.major ++ '.' :: natPrint v.minor)
        ++ '.' :: natPrint v.patch) ++ '-' :: joinIds '.' v.pre := by
      intro hc
      rcases List.mem_append.mp hc with h | h
      · exact hcore_plus h
      · rcases List.mem_cons.mp h with h2 | h2
        · exact absurd h2 (by decide)
        · exact hpre_plus h2
    rw [splitFirst_append_left '+' _ _ hvp_plus]
    have hsfp : splitFirst '+' ('+' :: joinIds '.' v.build)
        = ([], some (joinIds '.' v.build)) := by simp [splitFirst]
    simp only [hsfp, List.append_nil]
    rw [splitFirst_append_left '-' _ _ hcore_dash]
    have hsfd : splitFirst '-' ('-' :: joinIds '.' v.pre)
        = ([], some (joinIds '.' v.pre)) := by simp [splitFirst]
    simp only [hsfd, List.append_nil]
    simp only [hcore_split,
      parseNumericIdent_natPrint v.major hM, parseNumericIdent_natPrint v.minor hm,
      parseNumericIdent_natPrint v.patch hp]
    rw [splitOnChar_joinIds '.' v.pre hpe hpre_dot,
      splitOnChar_joinIds '.' v.build hbe hbuild_dot]
    simp only [hpre_all, hbuild_all, if_pos]

theorem uuid_parse_print (u : Uuid) (hv : u.Valid) : Uuid.parse u.print = some u := by
  obtain ⟨h1, h2, h3, h4, h5⟩ := hv
  have hhyph : Uuid.parseHyphenated u.print = some u := by
    unfold Uuid.print Uuid.parseHyphenated
    simp only [List.append_assoc, List.cons_append]
    rw [splitOnChar_append '-' (hexPrint 8 u.timeLow) _ (hexPrint_not_dash _ _),
      splitOnChar_append '-' (hexPrint 4 u.timeMid) _ (hexPrint_not_dash _ _),
      splitOnChar_append '-' (hexPrint 4 u.timeHi) _ (hexPrint_not_dash _ _),
      splitOnChar_append '-' (hexPrint 4 u.clockSeq) _ (hexPrint_not_dash _ _),
      splitOnChar_no_sep '-' (hexPrint 12 u.node) (hexPrint_not_dash _ _)]
    have e1 : (16 : Nat) ^ 8 = 2 ^ 32 := by norm_num
    have e2 : (16 : Nat) ^ 4 = 2 ^ 16 := by norm_num
    have e3 : (16 : Nat) ^ 12 = 2 ^ 48 := by norm_num
    simp only [hexPrint_length,
      parseDigitsBE_hexPrint 8 u.timeLow (by omega) (by omega),
      parseDigitsBE_hexPrint 4 u.timeMid (by omega) (by omega),
      parseDigitsBE_hexPrint 4 u.timeHi (by omega) (by omega),
      parseDigitsBE_hexPrint 4 u.clockSeq (by omega) (by omega),
      parseDigitsBE_hexPrint 12 u.node (by omega) (by omega)]
    simp
  have hlen : (Uuid.print u).length = 36 := by
    simp [Uuid.print, hexPrint_length]
  unfold Uuid.parse
  rw [hlen]
  norm_num
  exact hhyph

/-! ### IPv4 and IPv6 parsing lemmas -/

theorem takeWhile_append_eq (p : Char → Bool) (ds rest : List Char)
    (hds : ∀ c ∈ ds, p c = true) (hrest : rest.takeWhile p = []) :
    (ds ++ rest).takeWhile p = ds := by
  induction ds with
  | nil => simpa using hrest
  | cons c cs ih =>
    simp only [List.cons_append, List.takeWhile_cons, hds c (by simp), if_true]
    rw [ih fun x hx => hds x (by simp [hx])]

theorem natPrint_digit_chars (n : Nat) :
    ∀ c ∈ natPrint n, ((decVal c).isSome) = true := by
  intro c hc
  obtain ⟨d, hd, rfl⟩ := natPrint_mem n c hc
  rw [decVal_hexChar d hd]
  rfl

theorem segPrint_hex_chars (n : Nat) :
    ∀ c ∈ segPrint n, ((hexVal c).isSome) = true := by
  intro c hc
  obtain ⟨d, hd, rfl⟩ := segPrint_mem n c hc
  rw [hexVal_hexChar d hd]
  rfl

theorem segPrint_ne_nil (n : Nat) : segPrint n ≠ [] := by
  by_cases hn : n = 0
  · subst hn; decide
  · simp only [segPrint, hn, if_false, ne_eq, List.reverse_eq_nil_iff,
      List.map_eq_nil_iff]
    exact digitsLE_ne_nil 16 n n (by omega) le_rfl

theorem readOctet_print (n : Nat) (hn : n ≤ 255) (rest : List Char)
    (hrest : rest.takeWhile (fun c => (decVal c).isSome) = []) :
    readOctet (natPrint n ++ rest) = some (n, rest) := by
  have htw : (natPrint n ++ rest).takeWhile (fun c => (decVal c).isSome)
      = natPrint n :=
    takeWhile_append_eq _ _ _ (natPrint_digit_chars n) hrest
  have hlen3 : (natPrint n).length ≤ 3 :=
    natPrint_length_le n 3 (by omega) (by omega)
  simp only [readOctet, htw, List.take_of_length_le hlen3]
  rw [if_neg (natPrint_ne_nil n), leadingZero_natPrint]
  simp only [Bool.false_eq_true, if_false, parseDigitsBE_natPrint]
  rw [if_pos hn, List.drop_left]

theorem readOctet_print_nil (n : Nat) (hn : n ≤ 255) :
    readOctet (natPrint n) = some (n, []) := by
  have := readOctet_print n hn [] rfl
  rwa [List.append_nil] at this

theorem takeWhile_dec_dot (rest : List Char) :
    (('.' :: rest).takeWhile fun c => (decVal c).isSome) = [] := by
  simp [List.takeWhile_cons, show ((decVal '.').isSome) = false from rfl]

theorem readIpv4_print (a b c d : Nat) (ha : a ≤ 255) (hb : b ≤ 255)
    (hc : c ≤ 255) (hd : d ≤ 255) :
    readIpv4 (ipv4Print a b c d) = some ((a, b, c, d), []) := by
  unfold ipv4Print readIpv4
  simp only [List.append_assoc, List.cons_append]
  rw [readOctet_print a ha _ (takeWhile_dec_dot _)]
  simp only
  rw [readOctet_print b hb _ (takeWhile_dec_dot _)]
  simp only
  rw [readOctet_print c hc _ (takeWhile_dec_dot _)]
  simp only
  rw [readOctet_print_nil d hd]

theorem readOctet_rest (cs : List Char) (n : Nat) (rest : List Char)
    (h : readOctet cs = some (n, rest)) : ∃ k, rest = cs.drop k := by
  simp only [readOctet] at h
  split at h
  · exact absurd h (by simp)
  · split at h
    · exact absurd h (by simp)
    · split at h
      · split at h
        · obtain ⟨-, h2⟩ := Prod.mk.injEq .. ▸ Option.some.inj h
          exact ⟨_, h2.symm⟩
        · exact absurd h (by simp)
      · exact absurd h (by simp)

theorem readIpv4_no_dot (cs : List Char) (h : '.' ∉ cs) : readIpv4 cs = none := by
  unfold readIpv4
  rcases hoct : readOctet cs with _ | ⟨n, r1⟩
  · rfl
  · obtain ⟨k, rfl⟩ := readOctet_rest cs n r1 hoct
    rcases hr : cs.drop k with _ | ⟨c, r⟩
    · rfl
    · have hcne : c ≠ '.' := by
        intro hceq
        subst hceq
        exact h (List.mem_of_mem_drop (hr ▸ List.mem_cons_self '.' r))
      split
      · next heq =>
          obtain ⟨-, h3⟩ := Prod.mk.injEq .. ▸ Option.some.inj heq
          exact absurd (List.head_eq_of_cons_eq h3) hcne
      · rfl

theorem readEmbeddedIpv4_no_dot (cs : List Char) (h : '.' ∉ cs) :
    readEmbeddedIpv4 cs = none := by
  unfold readEmbeddedIpv4
  rw [readIpv4_no_dot cs h]

theorem readEmbeddedIpv4_print (a b c d : Nat) (ha : a ≤ 255) (hb : b ≤ 255)
    (hc : c ≤ 255) (hd : d ≤ 255) :
    readEmbeddedIpv4 (ipv4Print a b c d)
      = some ((a * 256 + b, c * 256 + d), []) := by
  unfold readEmbeddedIpv4
  rw [readIpv4_print a b c d ha hb hc hd]

theorem readHexGroup_print (g : Nat) (hg : g < 2 ^ 16) (rest : List Char)
    (hrest : rest.takeWhile (fun c => (hexVal c).isSome) = []) :
    readHexGroup (segPrint g ++ rest) = some (g, rest) := by
  have htw : (segPrint g ++ rest).takeWhile (fun c => (hexVal c).isSome)
      = segPrint g :=
    takeWhile_append_eq _ _ _ (segPrint_hex_chars g) hrest
  have hlen4 : (segPrint g).length ≤ 4 :=
    segPrint_length_le g 4 (by omega) (by omega)
  simp only [readHexGroup, htw, List.take_of_length_le hlen4]
  rw [if_neg (segPrint_ne_nil g)]
  simp only [parseDigitsBE_segPrint]
  rw [List.drop_left]

theorem printSeq_mem (first : Bool) (gs : List Nat) (c : Char)
    (hc : c ∈ printSeq first gs) : c = ':' ∨ ∃ d, d < 16 ∧ c = hexChar d := by
  induction gs generalizing first with
  | nil => cases first <;> simp [printSeq] at hc
  | cons g gs ih =>
    cases first with
    | true =>
      rcases List.mem_append.mp hc with h | h
      · exact Or.inr (segPrint_mem g c h)
      · exact ih false h
    | false =>
      rcases List.mem_cons.mp hc with rfl | hc2
      · exact Or.inl rfl
      · rcases List.mem_append.mp hc2 with h | h
        · exact Or.inr (segPrint_mem g c h)
        · exact ih false h

theorem printSeq_no_dot (first : Bool) (gs : List Nat) :
    '.' ∉ printSeq first gs := by
  intro hc
  rcases printSeq_mem first gs '.' hc with h | ⟨d, hd, h⟩
  · exact absurd h (by decide)
  · exact hexChar_ne_dot d hd h.symm

theorem takeWhile_hex_stop (gs : List Nat) (suffix : List Char)
    (hsuf : suffix = [] ∨ ∃ r, suffix = ':' :: r) :
    ((printSeq false gs ++ suffix).takeWhile fun c => (hexVal c).isSome) = [] := by
  cases gs with
  | nil =>
    rcases hsuf with rfl | ⟨r, rfl⟩
    · rfl
    · simp [printSeq, List.takeWhile_cons,
        show ((hexVal ':').isSome) = false from rfl]
  | cons g gs =>
    simp [printSeq, List.takeWhile_cons,
      show ((hexVal ':').isSome) = false from rfl]

/-- `read_groups` on a printed group sequence followed by nothing or by a
`::`: it reads exactly the printed groups and stops. -/
theorem readGroups_printSeq (gs : List Nat) : ∀ (limit : Nat) (first : Bool)
    (suffix : List Char),
    gs.length ≤ limit →
    (∀ g ∈ gs, g < 2 ^ 16) →
    (suffix = [] ∨ ∃ r, suffix = ':' :: ':' :: r) →
    '.' ∉ suffix →
    readGroups limit first (printSeq first gs ++ suffix) = (gs, false, suffix) := by
  induction gs with
  | nil =>
    intro limit first suffix _ _ hsuf _
    have hps : printSeq first ([] : List Nat) = [] := by cases first <;> rfl
    rw [hps, List.nil_append]
    cases limit with
    | zero => rfl
    | succ l =>
      rcases hsuf with rfl | ⟨r, rfl⟩
      · cases first <;> by_cases h1 : 1 ≤ l <;>
          simp [readGroups, h1, readSep, readEmbeddedIpv4, readIpv4, readOctet,
            readHexGroup]
      · cases first <;> by_cases h1 : 1 ≤ l <;>
          simp [readGroups, h1, readSep, readEmbeddedIpv4, readIpv4, readOctet,
            readHexGroup, List.takeWhile_cons,
            show ((decVal ':').isSome) = false from rfl,
            show ((hexVal ':').isSome) = false from rfl]
  | cons g gs ih =>
    intro limit first suffix hlen hval hsuf hdotsuf
    cases limit with
    | zero => simp at hlen
    | succ l =>
      have hdot_in : '.' ∉ segPrint g ++ (printSeq false gs ++ suffix) := by
        intro hc
        simp only [List.mem_append] at hc
        rcases hc with h | h | h
        · rcases segPrint_mem g '.' h with ⟨d, hd, hcd⟩
          exact hexChar_ne_dot d hd hcd.symm
        · exact printSeq_no_dot false gs h
        · exact hdotsuf h
      have hsuf' : (printSeq false gs ++ suffix) = []
          ∨ ∃ r, printSeq false gs ++ suffix = ':' :: r := by
        cases gs with
        | nil =>
          rcases hsuf with rfl | ⟨r, rfl⟩
          · exact Or.inl rfl
          · exact Or.inr ⟨':' :: r, rfl⟩
        | cons g2 gs2 => exact Or.inr ⟨_, rfl⟩
      have hgrp : readHexGroup (segPrint g ++ (printSeq false gs ++ suffix))
          = some (g, printSeq false gs ++ suffix) :=
        readHexGroup_print g (hval g (by simp)) _
          (by
            rcases hsuf' with h | ⟨r, h⟩
            · rw [h]; rfl
            · rw [h]
              simp [List.takeWhile_cons,
                show ((hexVal ':').isSome) = false from rfl])
      have hih := ih l false suffix (by simpa using hlen)
        (fun x hx => hval x (by simp [hx])) hsuf hdotsuf
      cases first with
      | true =>
        have hshape : printSeq true (g :: gs) ++ suffix
            = segPrint g ++ (printSeq false gs ++ suffix) := by
          simp [printSeq, List.append_assoc]
        rw [hshape]
        simp only [readGroups]
        have hemb : (if 1 ≤ l then
            readSep true readEmbeddedIpv4
              (segPrint g ++ (printSeq false gs ++ suffix)) else none) = none := by
          by_cases h1 : 1 ≤ l
          · simp [h1, readSep, readEmbeddedIpv4_no_dot _ hdot_in]
          · simp [h1]
        rw [hemb]
        simp [readSep, hgrp, hih]
      | false =>
        have hshape : printSeq false (g :: gs) ++ suffix
            = ':' :: (segPrint g ++ (printSeq false gs ++ suffix)) := by
          simp [printSeq, List.append_assoc]
        rw [hshape]
        simp only [readGroups]
        have hemb : (if 1 ≤ l then
            readSep false readEmbeddedIpv4
              (':' :: (segPrint g ++ (printSeq false gs ++ suffix))) else none)
            = none := by
          by_cases h1 : 1 ≤ l
          · simp [h1, readSep, readEmbeddedIpv4_no_dot _ hdot_in]
          · simp [h1]
        rw [hemb]
        simp [readSep, hgrp, hih]

theorem zeroRunAux_spec (l : List Nat) : ∀ (rest pre : List Nat)
    (cur longest : Nat × Nat),
    pre ++ rest = l →
    (cur.2 = 0 ∨ (cur.1 + cur.2 = pre.length ∧ SpanZero l cur)) →
    SpanZero l longest →
    SpanZero l (zeroRunAux rest pre.length cur longest) := by
  intro rest
  induction rest with
  | nil =>
    intro pre cur longest _ _ hl
    simpa [zeroRunAux] using hl
  | cons x rest ih =>
    intro pre cur longest hl hcur hlong
    simp only [zeroRunAux]
    by_cases hx : x = 0
    · subst hx
      rw [if_pos rfl]
      have hlen1 : (pre ++ [0]).length = pre.length + 1 := by simp
      have hget : l[pre.length]? = some 0 := by
        rw [← hl, List.getElem?_append_right le_rfl]
        simp
      have hlenle : pre.length + 1 ≤ l.length := by
        rw [← hl]
        simp
      have hcur' : SpanZero l (if cur.2 = 0 then pre.length else cur.1, cur.2 + 1)
          ∧ (if cur.2 = 0 then pre.length else cur.1) + (cur.2 + 1)
            = pre.length + 1 := by
        by_cases h0 : cur.2 = 0
        · rw [if_pos h0, h0]
          refine ⟨⟨by omega, ?_⟩, by omega⟩
          intro j hj
          have : j = 0 := by omega
          subst this
          simpa using hget
        · rw [if_neg h0]
          rcases hcur with h | ⟨hsum, hspan⟩
          · exact absurd h h0
          · refine ⟨⟨by omega, ?_⟩, by omega⟩
            intro j hj
            by_cases hjc : j < cur.2
            · exact hspan.2 j hjc
            · have : j = cur.2 := by omega
              subst this
              rw [hsum]
              exact hget
      have hih := ih (pre ++ [0])
        (if cur.2 = 0 then pre.length else cur.1, cur.2 + 1)
        (if longest.2 < cur.2 + 1 then
          (if cur.2 = 0 then pre.length else cur.1, cur.2 + 1) else longest)
        (by rw [← hl]; simp)
        (Or.inr ⟨by simpa [hlen1] using hcur'.2, hcur'.1⟩)
        (by
          split
          · exact hcur'.1
          · exact hlong)
      rw [hlen1] at hih
      exact hih
    · rw [if_neg hx]
      have hih := ih (pre ++ [x]) (0, 0) longest (by rw [← hl]; simp)
        (Or.inl rfl) hlong
      simpa using hih

theorem zeroRun_spec (segs : List Nat) : SpanZero segs (zeroRun segs) := by
  have := zeroRunAux_spec segs segs [] (0, 0) (0, 0) (by simp) (Or.inl rfl)
    (by exact ⟨by simp, fun j hj => absurd hj (by omega)⟩)
  simpa [zeroRun] using this

theorem spanZero_decompose (l : List Nat) (s r : Nat) (h : SpanZero l (s, r)) :
    l.take s ++ List.replicate r 0 ++ l.drop (s + r) = l := by
  obtain ⟨hb, hz⟩ := h
  simp only at hb hz
  have hmid : (l.drop s).take r = List.replicate r 0 := by
    apply List.ext_getElem?
    intro j
    by_cases hj : j < r
    · rw [List.getElem?_take_of_lt hj, List.getElem?_drop]
      rw [hz j hj]
      simp [List.getElem?_replicate, hj]
    · have h1 : ((l.drop s).take r)[j]? = none := by
        rw [List.getElem?_eq_none]
        simp only [List.length_take]
        omega
      have h2 : (List.replicate r 0)[j]? = none := by
        rw [List.getElem?_eq_none]
        simp only [List.length_replicate]
        omega
      rw [h1, h2]
  have hdd : (l.drop s).drop r = l.drop (s + r) := by
    rw [List.drop_drop]
  calc l.take s ++ List.replicate r 0 ++ l.drop (s + r)
      = l.take s ++ ((l.drop s).take r ++ (l.drop s).drop r) := by
        rw [hmid, hdd, List.append_assoc]
    _ = l.take s ++ l.drop s := by rw [List.take_append_drop]
    _ = l := List.take_append_drop s l

theorem ipv6_parse_print (s0 s1 s2 s3 s4 s5 s6 s7 : Nat)
    (h0 : s0 < 2 ^ 16) (h1 : s1 < 2 ^ 16) (h2 : s2 < 2 ^ 16) (h3 : s3 < 2 ^ 16)
    (h4 : s4 < 2 ^ 16) (h5 : s5 < 2 ^ 16) (h6 : s6 < 2 ^ 16) (h7 : s7 < 2 ^ 16) :
    ipv6Parse (ipv6Print [s0, s1, s2, s3, s4, s5, s6, s7])
      = some [s0, s1, s2, s3, s4, s5, s6, s7] := by
  have hvall : ∀ g ∈ [s0, s1, s2, s3, s4, s5, s6, s7], g < 2 ^ 16 := by
    intro g hg
    simp only [List.mem_cons, List.not_mem_nil, or_false] at hg
    rcases hg with rfl | rfl | rfl | rfl | rfl | rfl | rfl | rfl <;> omega
  by_cases hmap : [s0, s1, s2, s3, s4, s5, s6, s7].take 6 = [0, 0, 0, 0, 0, 65535]
  · have hm : s0 = 0 ∧ s1 = 0 ∧ s2 = 0 ∧ s3 = 0 ∧ s4 = 0 ∧ s5 = 65535 := by
      simpa using hmap
    obtain ⟨rfl, rfl, rfl, rfl, rfl, rfl⟩ := hm
    have hprint : ipv6Print [0, 0, 0, 0, 0, 65535, s6, s7]
        = ':' :: ':' :: 'f' :: 'f' :: 'f' :: 'f' :: ':' ::
          ipv4Print (s6 / 256) (s6 % 256) (s7 / 256) (s7 % 256) := by
      simp [ipv6Print]
    rw [hprint]
    have hembed : readEmbeddedIpv4
        (ipv4Print (s6 / 256) (s6 % 256) (s7 / 256) (s7 % 256))
        = some ((s6 / 256 * 256 + s6 % 256, s7 / 256 * 256 + s7 % 256), []) :=
      readEmbeddedIpv4_print _ _ _ _ (by omega) (by omega) (by omega) (by omega)
    have hg6 : readGroups 6 false
        (':' :: ipv4Print (s6 / 256) (s6 % 256) (s7 / 256) (s7 % 256))
        = ([s6 / 256 * 256 + s6 % 256, s7 / 256 * 256 + s7 % 256], true, []) := by
      simp only [readGroups]
      simp [readSep, hembed]
    have hg7 : readGroups 7 true
        ('f' :: 'f' :: 'f' :: 'f' :: ':' ::
          ipv4Print (s6 / 256) (s6 % 256) (s7 / 256) (s7 % 256))
        = ([65535, s6 / 256 * 256 + s6 % 256, s7 / 256 * 256 + s7 % 256],
            true, []) := by
      simp only [readGroups]
      have e1 : readEmbeddedIpv4
          ('f' :: 'f' :: 'f' :: 'f' :: ':' ::
            ipv4Print (s6 / 256) (s6 % 256) (s7 / 256) (s7 % 256)) = none := rfl
      have e2 : readHexGroup
          ('f' :: 'f' :: 'f' :: 'f' :: ':' ::
            ipv4Print (s6 / 256) (s6 % 256) (s7 / 256) (s7 % 256))
          = some (65535, ':' ::
            ipv4Print (s6 / 256) (s6 % 256) (s7 / 256) (s7 % 256)) := rfl
      simp [readSep, e1, e2, hembed]
    have hg8 : readGroups 8 true
        (':' :: ':' :: 'f' :: 'f' :: 'f' :: 'f' :: ':' ::
          ipv4Print (s6 / 256) (s6 % 256) (s7 / 256) (s7 % 256))
        = ([], false,
          ':' :: ':' :: 'f' :: 'f' :: 'f' :: 'f' :: ':' ::
            ipv4Print (s6 / 256) (s6 % 256) (s7 / 256) (s7 % 256)) := rfl
    simp only [ipv6Parse, hg8]
    norm_num
    simp only [hg7]
    norm_num
    have e6 : s6 / 256 * 256 + s6 % 256 = s6 := by omega
    have e7 : s7 / 256 * 256 + s7 % 256 = s7 := by omega
    simp [e6, e7, List.replicate]
  · by_cases hzr : 1 < (zeroRun [s0, s1, s2, s3, s4, s5, s6, s7]).2
    · have hspan := zeroRun_spec [s0, s1, s2, s3, s4, s5, s6, s7]
      obtain ⟨hbound, -⟩ := hspan
      have hlen8 : ([s0, s1, s2, s3, s4, s5, s6, s7] : List Nat).length = 8 := rfl
      rw [hlen8] at hbound
      have hprint : ipv6Print [s0, s1, s2, s3, s4, s5, s6, s7]
          = printSeq true
              ([s0, s1, s2, s3, s4, s5, s6, s7].take
                (zeroRun [s0, s1, s2, s3, s4, s5, s6, s7]).1)
            ++ ':' :: ':' :: printSeq true
              ([s0, s1, s2, s3, s4, s5, s6, s7].drop
                ((zeroRun [s0, s1, s2, s3, s4, s5, s6, s7]).1
                  + (zeroRun [s0, s1, s2, s3, s4, s5, s6, s7]).2)) := by
        simp only [ipv6Print, if_neg hmap, if_pos hzr]
      rw [hprint]
      have hhead := readGroups_printSeq
        ([s0, s1, s2, s3, s4, s5, s6, s7].take
          (zeroRun [s0, s1, s2, s3, s4, s5, s6, s7]).1)
        8 true
        (':' :: ':' :: printSeq true
          ([s0, s1, s2, s3, s4, s5, s6, s7].drop
            ((zeroRun [s0, s1, s2, s3, s4, s5, s6, s7]).1
              + (zeroRun [s0, s1, s2, s3, s4, s5, s6, s7]).2)))
        (by simp) (fun g hg => hvall g (List.mem_of_mem_take hg))
        (Or.inr ⟨_, rfl⟩)
        (by
          intro hd
          simp only [List.mem_cons] at hd
          rcases hd with hd | hd | hd
          · exact absurd hd (by decide)
          · exact absurd hd (by decide)
          · exact printSeq_no_dot true _ hd)
      have hheadlen : ([s0, s1, s2, s3, s4, s5, s6, s7].take
          (zeroRun [s0, s1, s2, s3, s4, s5, s6, s7]).1).length
          = (zeroRun [s0, s1, s2, s3, s4, s5, s6, s7]).1 := by
        rw [List.length_take, hlen8]
        omega
      have htaillen : ([s0, s1, s2, s3, s4, s5, s6, s7].drop
          ((zeroRun [s0, s1, s2, s3, s4, s5, s6, s7]).1
            + (zeroRun [s0, s1, s2, s3, s4, s5, s6, s7]).2)).length
          = 8 - ((zeroRun [s0, s1, s2, s3, s4, s5, s6, s7]).1
            + (zeroRun [s0, s1, s2, s3, s4, s5, s6, s7]).2) := by
        rw [List.length_drop, hlen8]
      have htail := readGroups_printSeq
        ([s0, s1, s2, s3, s4, s5, s6, s7].drop
          ((zeroRun [s0, s1, s2, s3, s4, s5, s6, s7]).1
            + (zeroRun [s0, s1, s2, s3, s4, s5, s6, s7]).2))
        (8 - (([s0, s1, s2, s3, s4, s5, s6, s7].take
          (zeroRun [s0, s1, s2, s3, s4, s5, s6, s7]).1).length + 1))
        true []
        (by rw [htaillen, hheadlen]; omega)
        (fun g hg => hvall g (List.mem_of_mem_drop hg))
        (Or.inl rfl) (by simp)
      rw [List.append_nil] at htail
      simp only [ipv6Parse, hhead]
      rw [if_neg (by rw [hheadlen]; omega)]
      simp only [Bool.false_eq_true, if_false, htail]
      rw [if_true]
      have hrepl : 8 - ([s0, s1, s2, s3, s4, s5, s6, s7].take
            (zeroRun [s0, s1, s2, s3, s4, s5, s6, s7]).1).length
          - ([s0, s1, s2, s3, s4, s5, s6, s7].drop
            ((zeroRun [s0, s1, s2, s3, s4, s5, s6, s7]).1
              + (zeroRun [s0, s1, s2, s3, s4, s5, s6, s7]).2)).length
          = (zeroRun [s0, s1, s2, s3, s4, s5, s6, s7]).2 := by
        rw [hheadlen, htaillen]
        omega
      rw [hrepl]
      have hdec := spanZero_decompose [s0, s1, s2, s3, s4, s5, s6, s7]
        (zeroRun [s0, s1, s2, s3, s4, s5, s6, s7]).1
        (zeroRun [s0, s1, s2, s3, s4, s5, s6, s7]).2
        (by simpa using zeroRun_spec [s0, s1, s2, s3, s4, s5, s6, s7])
      rw [hdec]
    · have hprint : ipv6Print [s0, s1, s2, s3, s4, s5, s6, s7]
          = printSeq true [s0, s1, s2, s3, s4, s5, s6, s7] := by
        simp only [ipv6Print, if_neg hmap, if_neg hzr]
      rw [hprint]
      have h := readGroups_printSeq [s0, s1, s2, s3, s4, s5, s6, s7] 8 true []
        (by simp) hvall (Or.inl rfl) (by simp)
      rw [List.append_nil] at h
      simp only [ipv6Parse, h]
      rfl

theorem ipv6Print_readIpv4 (segs : List Nat) :
    readIpv4 (ipv6Print segs) = none := by
  by_cases hmap : segs.take 6 = [0, 0, 0, 0, 0, 65535]
  · simp only [ipv6Print, if_pos hmap]
    rfl
  · apply readIpv4_no_dot
    simp only [ipv6Print, if_neg hmap]
    by_cases hzr : 1 < (zeroRun segs).2
    · rw [if_pos hzr]
      intro hd
      simp only [List.mem_append, List.mem_cons] at hd
      rcases hd with hd | hd | hd | hd
      · exact printSeq_no_dot true _ hd
      · exact absurd hd (by decide)
      · exact absurd hd (by decide)
      · exact printSeq_no_dot true _ hd
    · rw [if_neg hzr]
      exact printSeq_no_dot true segs

theorem ipAddr_parse_print (ip : IpAddr) (hv : ip.Valid) :
    IpAddr.parse ip.print = some ip := by
  cases ip with
  | v4 a b c d =>
    obtain ⟨ha, hb, hc, hd⟩ := hv
    have h := readIpv4_print a b c d (by omega) (by omega) (by omega) (by omega)
    simp only [IpAddr.print, IpAddr.parse, h, if_true]
  | v6 s0 s1 s2 s3 s4 s5 s6 s7 =>
    obtain ⟨h0, h1, h2, h3, h4, h5, h6, h7⟩ := hv
    have hp6 := ipv6_parse_print s0 s1 s2 s3 s4 s5 s6 s7 h0 h1 h2 h3 h4 h5 h6 h7
    simp only [IpAddr.print, IpAddr.parse, ipv6Print_readIpv4, hp6]

/-! ### Leaf decode-encode round trips -/

theorem decodeAgentId_encode (a : AgentId) (h : a.uuid.Valid) :
    decodeAgentId (encodeAgentId a) = some a := by
  show (Uuid.parse a.uuid.print).map AgentId.mk = some a
  rw [uuid_parse_print a.uuid h]
  rfl

theorem decodeAuth_encode (a : Auth) : decodeAuth (encodeAuth a) = some a := by
  cases a <;> rfl

theorem decodeVersion_encode (v : Version) (hv : v.Valid) :
    decodeVersion (encodeVersion v) = some v := by
  show Version.parse v.print = some v
  exact version_parse_print v hv

theorem decodeIp_encode (ip : IpAddr) (h : ip.Valid) :
    decodeIp (encodeIp ip) = some ip := by
  show IpAddr.parse ip.print = some ip
  exact ipAddr_parse_print ip h

theorem decodeLocalInfo_encode (li : LocalInfo)
    (h : li.ip.Valid ∧ li.port < 2 ^ 16) :
    decodeLocalInfo (encodeLocalInfo li) = some li := by
  simp only [encodeLocalInfo, decodeLocalInfo, List.lookup]
  simp [decodeNatLt, decodeIp_encode li.ip h.1]
  rw [if_pos (show li.port < 65536 by have := h.2; omega)]

theorem decodeServiceInfo_encode (si : ServiceInfo)
    (h : si.target_ip.Valid ∧ si.target_port < 2 ^ 16) :
    decodeServiceInfo (encodeServiceInfo si) = some si := by
  simp only [encodeServiceInfo, decodeServiceInfo, List.lookup]
  simp [decodeNatLt, decodeIp_encode si.target_ip h.1]
  rw [if_pos (show si.target_port < 65536 by have := h.2; omega)]

theorem decodeEncryption_encode (e : Encryption) :
    decodeEncryption (encodeEncryption e) = some e := by
  simp [encodeEncryption, decodeEncryption, List.lookup, decodeString]

theorem decodeOpt_str (x : Option String) :
    decodeOpt decodeString (encodeOpt Json.str x) = some x := by
  cases x <;> rfl

theorem decodeOpt_version (x : Option Version) (h : ∀ v ∈ x, v.Valid) :
    decodeOpt decodeVersion (encodeOpt encodeVersion x) = some x := by
  cases x with
  | none => rfl
  | some v =>
    show (decodeVersion (encodeVersion v)).map some = some (some v)
    rw [decodeVersion_encode v (h v (by simp))]
    rfl

theorem decodeOpt_localInfo (x : Option LocalInfo)
    (h : ∀ li ∈ x, li.ip.Valid ∧ li.port < 2 ^ 16) :
    decodeOpt decodeLocalInfo (encodeOpt encodeLocalInfo x) = some x := by
  cases x with
  | none => rfl
  | some li =>
    show (decodeLocalInfo (encodeLocalInfo li)).map some = some (some li)
    rw [decodeLocalInfo_encode li (h li (by simp))]
    rfl

theorem decodeOpt_serviceInfo (x : Option ServiceInfo)
    (h : ∀ si ∈ x, si.target_ip.Valid ∧ si.target_port < 2 ^ 16) :
    decodeOpt decodeServiceInfo (encodeOpt encodeServiceInfo x) = some x := by
  cases x with
  | none => rfl
  | some si =>
    show (decodeServiceInfo (encodeServiceInfo si)).map some = some (some si)
    rw [decodeServiceInfo_encode si (h si (by simp))]
    rfl

theorem decodeOpt_encryption (x : Option Encryption) :
    decodeOpt decodeEncryption (encodeOpt encodeEncryption x) = some x := by
  cases x with
  | none => rfl
  | some e =>
    show (decodeEncryption (encodeEncryption e)).map some = some (some e)
    rw [decodeEncryption_encode]
    rfl

/-! ### Claim theorems for the handshake message -/

/-- C9: every valid `AgentHandshake` value round-trips losslessly through
its serde JSON wire encoding: decoding the encoding yields an equal
value. -/
theorem agentHandshake_roundtrip (h : AgentHandshake) (hv : h.Valid) :
    decodeAgentHandshake (encodeAgentHandshake h) = some h := by
  obtain ⟨hid, hver, hli, hsi, hhb, hts⟩ := hv
  have l1 := decodeAgentId_encode h.agent_id hid
  have l2 := decodeOpt_str h.agent_name
  have l3 := decodeAuth_encode h.auth
  have l4 := decodeOpt_version h.version hver
  have l5 := decodeOpt_localInfo h.local_info hli
  have l6 := decodeOpt_serviceInfo h.service_info hsi
  have l7 := decodeOpt_encryption h.encryption
  simp only [encodeAgentHandshake, decodeAgentHandshake]
  simp only [List.lookup]
  simp only [show (("agent_id" : String) == "agent_id") = true from rfl]
  simp [l1, l2, l3, l4, l5, l6, l7, decodeNatLt]
  rw [if_pos (show h.heartbeat_interval < 4294967296 by omega),
    if_pos (show h.timestamp < 18446744073709551616 by omega)]

/-- Witness for `agentHandshake_roundtrip`: the all-optionals-present
sample handshake is valid and round-trips. -/
theorem agentHandshake_roundtrip_witness :
    sampleHandshake.Valid ∧
    decodeAgentHandshake (encodeAgentHandshake sampleHandshake)
      = some sampleHandshake :=
  ⟨by decide, agentHandshake_roundtrip sampleHandshake (by decide)⟩

/-- C6: the builder's `version(text)` setter calls
`version.parse().unwrap()`; on a malformed (non-semantic-version) input it
panics — aborting the process — rather than surfacing a recoverable parse
error to the caller.  The spec (§4.1, §7, §9) calls for a reported
`ParseError` and flags this very crash as a defect in the source. -/
theorem setVersion_panics_on_malformed :
    Version.parse "not-a-semver".data = none ∧
    AgentHandshakeBuilder.setVersion {} "not-a-semver" = .panic :=
  ⟨rfl, rfl⟩

/-- C7 (counterexample): two no-setter builds observe different draws of
the process RNG (made explicit: draws 0 and 1) and produce unequal
`AgentHandshake` values — `agent_id` defaults to a *fresh random* v4 UUID
— so building is not repeatable as claimed. -/
theorem build_not_repeatable :
    AgentHandshakeBuilder.build {} 0 ≠ AgentHandshakeBuilder.build {} 1 := by
  decide

/-- C7 (amended): building is pure given the builder state and the RNG
draw; two builds from the same state agree on every field except
`agent_id` (which is freshly drawn from the RNG when unset), and are
fully equal whenever `agent_id` was explicitly set. -/
theorem build_deterministic_except_agent_id (b : AgentHandshakeBuilder)
    (r1 r2 : Nat) :
    ((b.build r1).agent_name = (b.build r2).agent_name ∧
     (b.build r1).auth = (b.build r2).auth ∧
     (b.build r1).version = (b.build r2).version ∧
     (b.build r1).local_info = (b.build r2).local_info ∧
     (b.build r1).service_info = (b.build r2).service_info ∧
     (b.build r1).encryption = (b.build r2).encryption ∧
     (b.build r1).heartbeat_interval = (b.build r2).heartbeat_interval ∧
     (b.build r1).timestamp = (b.build r2).timestamp) ∧
    (∀ a, b.agent_id = some a → b.build r1 = b.build r2) := by
  refine ⟨⟨rfl, rfl, rfl, rfl, rfl, rfl, rfl, rfl⟩, ?_⟩
  intro a ha
  simp [AgentHandshakeBuilder.build, ha]

/-- Witness for `build_deterministic_except_agent_id`: with `agent_id`
explicitly set, two builds under different RNG draws coincide. -/
theorem build_deterministic_except_agent_id_witness :
    AgentHandshakeBuilder.build { agent_id := some ⟨⟨1, 2, 3, 4, 5⟩⟩ } 0
      = AgentHandshakeBuilder.build { agent_id := some ⟨⟨1, 2, 3, 4, 5⟩⟩ } 1 :=
  (build_deterministic_except_agent_id { agent_id := some ⟨⟨1, 2, 3, 4, 5⟩⟩ }
    0 1).2 ⟨⟨1, 2, 3, 4, 5⟩⟩ rfl

/-- C8: building with no setters succeeds (build is total) and yields
`auth = Anonymous`, `heartbeat_interval = 0`, `timestamp = 0`, and all
five optional fields absent — whatever the RNG draw used for the
generated `agent_id`. -/
theorem build_default_fields (rng : Nat) :
    (AgentHandshakeBuilder.build {} rng).auth = .anonymous ∧
    (AgentHandshakeBuilder.build {} rng).heartbeat_interval = 0 ∧
    (AgentHandshakeBuilder.build {} rng).timestamp = 0 ∧
    (AgentHandshakeBuilder.build {} rng).agent_name = none ∧
    (AgentHandshakeBuilder.build {} rng).version = none ∧
    (AgentHandshakeBuilder.build {} rng).local_info = none ∧
    (AgentHandshakeBuilder.build {} rng).service_info = none ∧
    (AgentHandshakeBuilder.build {} rng).encryption = none :=
  ⟨rfl, rfl, rfl, rfl, rfl, rfl, rfl, rfl⟩

/-- C10: the `From<&str>` conversion to `AgentId` is partial — it panics
(process abort) on every input that is not a valid textual UUID — and
under the precondition that the input parses as a UUID the panic branch
is unreachable: the conversion succeeds and is deterministic (equal input
text gives equal `AgentId`). -/
theorem agentId_fromStr_spec :
    (∀ s, Uuid.parse s.data = none → AgentId.fromStr s = .panic) ∧
    (∀ s u, Uuid.parse s.data = some u → AgentId.fromStr s = .ok ⟨u⟩) ∧
    (∀ s t, s = t → AgentId.fromStr s = AgentId.fromStr t) := by
  refine ⟨fun s hs => ?_, fun s u hu => ?_, fun s t hst => by rw [hst]⟩
  · simp [AgentId.fromStr, hs]
  · simp [AgentId.fromStr, hu]

/-- Witness for `agentId_fromStr_spec`: a non-UUID string panics; the
same UUID converts successfully from each of the four accepted text forms
(hyphenated, simple, braced, URN). -/
theorem agentId_fromStr_spec_witness :
    AgentId.fromStr "agent-123" = .panic ∧
    AgentId.fromStr "67e55044-10b1-426f-9247-bb680e5fe0c8"
      = .ok ⟨⟨0x67e55044, 0x10b1, 0x426f, 0x9247, 0xbb680e5fe0c8⟩⟩ ∧
    AgentId.fromStr "67e5504410b1426f9247bb680e5fe0c8"
      = .ok ⟨⟨0x67e55044, 0x10b1, 0x426f, 0x9247, 0xbb680e5fe0c8⟩⟩ ∧
    AgentId.fromStr "\x7b67e55044-10b1-426f-9247-bb680e5fe0c8\x7d"
      = .ok ⟨⟨0x67e55044, 0x10b1, 0x426f, 0x9247, 0xbb680e5fe0c8⟩⟩ ∧
    AgentId.fromStr "urn:uuid:67e55044-10b1-426f-9247-bb680e5fe0c8"
      = .ok ⟨⟨0x67e55044, 0x10b1, 0x426f, 0x9247, 0xbb680e5fe0c8⟩⟩ :=
  ⟨agentId_fromStr_spec.1 "agent-123" rfl,
   agentId_fromStr_spec.2.1 "67e55044-10b1-426f-9247-bb680e5fe0c8"
     ⟨0x67e55044, 0x10b1, 0x426f, 0x9247, 0xbb680e5fe0c8⟩ (by decide),
   agentId_fromStr_spec.2.1 "67e5504410b1426f9247bb680e5fe0c8"
     ⟨0x67e55044, 0x10b1, 0x426f, 0x9247, 0xbb680e5fe0c8⟩ (by decide),
   agentId_fromStr_spec.2.1 "\x7b67e55044-10b1-426f-9247-bb680e5fe0c8\x7d"
     ⟨0x67e55044, 0x10b1, 0x426f, 0x9247, 0xbb680e5fe0c8⟩ (by decide),
   agentId_fromStr_spec.2.1 "urn:uuid:67e55044-10b1-426f-9247-bb680e5fe0c8"
     ⟨0x67e55044, 0x10b1, 0x426f, 0x9247, 0xbb680e5fe0c8⟩ (by decide)⟩

end Tunnelto
